import Mathlib

/-!
A shallow embedding of the rlox tree-walking interpreter (scanner, parser,
resolver, evaluator, and the host driver) together with theorems checking the
natural-language specification against the code.

Modelling conventions, chosen once and used throughout:

* Rust `f64` number payloads are modelled as exact fractions `LoxNum`
  (an integer numerator and denominator, never normalised).  Every literal the
  scanner produces is a finite decimal, and the program facts proved below
  never depend on IEEE-754 rounding, so exact fractions agree with the source
  on all inputs that appear in any theorem.  Equality of numbers is fraction
  equality by cross-multiplication, matching `f64 ==` on such values.
* `Rc<RefCell<Environment>>` and `Rc<RefCell<Instance>>` allocations are
  modelled as indices into explicit heaps carried in the interpreter state.
  An index plays the role of the pointer; cloning an `Rc` clones the index.
* Rust panics (`unwrap` of `None`, `unreachable!`, out-of-bounds indexing,
  `usize` underflow) are modelled as the distinguished outcome `RErr.panic`,
  which no construct of the interpreter catches.
* Recursion through the evaluator, resolver, parser and scanner is bounded by
  an explicit fuel argument; exhausting fuel yields the artificial outcome
  `RErr.outOfFuel` (or its parser/scanner analogue), which never occurs in any
  run appearing in a theorem below.
* `HashMap` fields are modelled as association lists with insert-replaces
  semantics; the observable operations used by the source (insert, get,
  contains) agree.
-/

/-! ### Exact decimal numbers standing in for `f64` payloads -/

/-- A number value: an exact fraction. The scanner produces `mant / 10^k` for
a literal with `k` fraction digits; arithmetic is exact fraction arithmetic. -/
structure LoxNum where
  num : Int
  den : Int
  deriving Repr, DecidableEq

def LoxNum.ofNat (n : Nat) : LoxNum := ⟨n, 1⟩

def LoxNum.add (a b : LoxNum) : LoxNum := ⟨a.num * b.den + b.num * a.den, a.den * b.den⟩

def LoxNum.sub (a b : LoxNum) : LoxNum := ⟨a.num * b.den - b.num * a.den, a.den * b.den⟩

def LoxNum.mul (a b : LoxNum) : LoxNum := ⟨a.num * b.num, a.den * b.den⟩

def LoxNum.div (a b : LoxNum) : LoxNum := ⟨a.num * b.den, a.den * b.num⟩

def LoxNum.neg (a : LoxNum) : LoxNum := ⟨-a.num, a.den⟩

/-- `f64` equality on exact fractions: cross multiplication. -/
def LoxNum.beq (a b : LoxNum) : Bool := a.num * b.den == b.num * a.den

/-- `f64` strict order; denominators produced by the scanner and preserved by
`add`, `sub`, `mul` are positive, for which this cross-multiplied form agrees
with the numeric order. -/
def LoxNum.ltb (a b : LoxNum) : Bool := a.num * b.den < b.num * a.den

def LoxNum.leb (a b : LoxNum) : Bool := a.num * b.den ≤ b.num * a.den

/-! ### token.rs -/

inductive TokenKind where
  | leftParen | rightParen | leftBrace | rightBrace
  | comma | dot | minus | plus | semicolon | slash | star
  | bang | bangEqual | equal | equalEqual
  | greater | greaterEqual | less | lessEqual
  | identifier (s : String)
  | string (s : String)
  | number (x : LoxNum)
  | kwAnd | kwClass | kwElse | kwFalse | kwFun | kwFor | kwIf | kwNil
  | kwOr | kwPrint | kwReturn | kwSuper | kwThis | kwTrue | kwVar | kwWhile
  | eof
  deriving Repr, DecidableEq

structure Token where
  kind : TokenKind
  line : Nat
  deriving Repr, DecidableEq

/-- `PartialEq` on `TokenKind` as derived in the source: discriminant equality
plus payload equality, with the `Number` payload compared by `f64 ==`. -/
def TokenKind.beq : TokenKind → TokenKind → Bool
  | .identifier a, .identifier b => a == b
  | .string a, .string b => a == b
  | .number a, .number b => a.beq b
  | .leftParen, .leftParen => true
  | .rightParen, .rightParen => true
  | .leftBrace, .leftBrace => true
  | .rightBrace, .rightBrace => true
  | .comma, .comma => true
  | .dot, .dot => true
  | .minus, .minus => true
  | .plus, .plus => true
  | .semicolon, .semicolon => true
  | .slash, .slash => true
  | .star, .star => true
  | .bang, .bang => true
  | .bangEqual, .bangEqual => true
  | .equal, .equal => true
  | .equalEqual, .equalEqual => true
  | .greater, .greater => true
  | .greaterEqual, .greaterEqual => true
  | .less, .less => true
  | .lessEqual, .lessEqual => true
  | .kwAnd, .kwAnd => true
  | .kwClass, .kwClass => true
  | .kwElse, .kwElse => true
  | .kwFalse, .kwFalse => true
  | .kwFun, .kwFun => true
  | .kwFor, .kwFor => true
  | .kwIf, .kwIf => true
  | .kwNil, .kwNil => true
  | .kwOr, .kwOr => true
  | .kwPrint, .kwPrint => true
  | .kwReturn, .kwReturn => true
  | .kwSuper, .kwSuper => true
  | .kwThis, .kwThis => true
  | .kwTrue, .kwTrue => true
  | .kwVar, .kwVar => true
  | .kwWhile, .kwWhile => true
  | .eof, .eof => true
  | _, _ => false

/-- Derived `PartialEq` on `Token`: kind and line. -/
def Token.beq (a b : Token) : Bool := a.kind.beq b.kind && a.line == b.line

/-! ### ast.rs

The checked-in `ast.rs` is a stale draft: it lacks the `Get`, `Set`, `This`
and `SuperExpr` expression variants and the `superclass` field of `Class`,
all of which `parser.rs`, `resolver.rs` and `interpreter.rs` construct and
consume.  The node shapes below are therefore taken from the draft where it
has them and completed from the fields those callers use (which match the
spec's data model): `Get{object, name}`, `Set{object, name, value}`,
`This{keyword}`, `Super{keyword, method}`,
`Class{name, superclass?, methods}`. -/

mutual

inductive Expr where
  | unary (operator : Token) (right : Expr)
  | binary (left : Expr) (operator : Token) (right : Expr)
  | literal (value : Token)
  | grouping (expression : Expr)
  | variableE (name : Token)
  | assign (name : Token) (value : Expr)
  | logical (left : Expr) (operator : Token) (right : Expr)
  | call (callee : Expr) (paren : Token) (arguments : List Expr)
  | get (object : Expr) (name : Token)
  | set (object : Expr) (name : Token) (value : Expr)
  | thisE (keyword : Token)
  | superE (keyword : Token) (method : Token)
  deriving Repr

inductive Stmt where
  | block (statements : List Stmt)
  | expression (expression : Expr)
  | print (expression : Expr)
  | var (name : Token) (initializer : Option Expr)
  | ifStmt (condition : Expr) (thenBranch : Stmt) (elseBranch : Option Stmt)
  | whileStmt (condition : Expr) (body : Stmt)
  | function (f : FunctionDecl)
  | returnStmt (keyword : Token) (value : Option Expr)
  | classStmt (name : Token) (superclass : Option Expr) (methods : List FunctionDecl)
  deriving Repr

inductive FunctionDecl where
  | mk (name : Token) (params : List Token) (body : List Stmt)
  deriving Repr

end

def FunctionDecl.name : FunctionDecl → Token
  | .mk n _ _ => n

def FunctionDecl.params : FunctionDecl → List Token
  | .mk _ p _ => p

def FunctionDecl.body : FunctionDecl → List Stmt
  | .mk _ _ b => b

/-! Derived `PartialEq` on expression and statement trees (the resolver's
locals table is keyed on it, so the `f64`-aware token equality matters). -/

mutual

def Expr.beq : Expr → Expr → Bool
  | .unary o1 r1, .unary o2 r2 => o1.beq o2 && Expr.beq r1 r2
  | .binary l1 o1 r1, .binary l2 o2 r2 => Expr.beq l1 l2 && o1.beq o2 && Expr.beq r1 r2
  | .literal v1, .literal v2 => v1.beq v2
  | .grouping e1, .grouping e2 => Expr.beq e1 e2
  | .variableE n1, .variableE n2 => n1.beq n2
  | .assign n1 v1, .assign n2 v2 => n1.beq n2 && Expr.beq v1 v2
  | .logical l1 o1 r1, .logical l2 o2 r2 => Expr.beq l1 l2 && o1.beq o2 && Expr.beq r1 r2
  | .call c1 p1 a1, .call c2 p2 a2 => Expr.beq c1 c2 && p1.beq p2 && Expr.beqList a1 a2
  | .get o1 n1, .get o2 n2 => Expr.beq o1 o2 && n1.beq n2
  | .set o1 n1 v1, .set o2 n2 v2 => Expr.beq o1 o2 && n1.beq n2 && Expr.beq v1 v2
  | .thisE k1, .thisE k2 => k1.beq k2
  | .superE k1 m1, .superE k2 m2 => k1.beq k2 && m1.beq m2
  | _, _ => false

def Expr.beqList : List Expr → List Expr → Bool
  | [], [] => true
  | a :: as, b :: bs => Expr.beq a b && Expr.beqList as bs
  | _, _ => false

end

mutual

def Stmt.beq : Stmt → Stmt → Bool
  | .block s1, .block s2 => Stmt.beqList s1 s2
  | .expression e1, .expression e2 => Expr.beq e1 e2
  | .print e1, .print e2 => Expr.beq e1 e2
  | .var n1 i1, .var n2 i2 => n1.beq n2 && Stmt.beqOptExpr i1 i2
  | .ifStmt c1 t1 e1, .ifStmt c2 t2 e2 =>
      Expr.beq c1 c2 && Stmt.beq t1 t2 && Stmt.beqOptStmt e1 e2
  | .whileStmt c1 b1, .whileStmt c2 b2 => Expr.beq c1 c2 && Stmt.beq b1 b2
  | .function f1, .function f2 => Stmt.beqFunction f1 f2
  | .returnStmt k1 v1, .returnStmt k2 v2 => k1.beq k2 && Stmt.beqOptExpr v1 v2
  | .classStmt n1 s1 m1, .classStmt n2 s2 m2 =>
      n1.beq n2 && Stmt.beqOptExpr s1 s2 && Stmt.beqFunctionList m1 m2
  | _, _ => false

def Stmt.beqList : List Stmt → List Stmt → Bool
  | [], [] => true
  | a :: as, b :: bs => Stmt.beq a b && Stmt.beqList as bs
  | _, _ => false

def Stmt.beqOptExpr : Option Expr → Option Expr → Bool
  | none, none => true
  | some a, some b => Expr.beq a b
  | _, _ => false

def Stmt.beqOptStmt : Option Stmt → Option Stmt → Bool
  | none, none => true
  | some a, some b => Stmt.beq a b
  | _, _ => false

def Stmt.beqFunction : FunctionDecl → FunctionDecl → Bool
  | .mk n1 p1 b1, .mk n2 p2 b2 =>
      n1.beq n2 && Stmt.beqTokenList p1 p2 && Stmt.beqList b1 b2

def Stmt.beqFunctionList : List FunctionDecl → List FunctionDecl → Bool
  | [], [] => true
  | a :: as, b :: bs => Stmt.beqFunction a b && Stmt.beqFunctionList as bs
  | _, _ => false

def Stmt.beqTokenList : List Token → List Token → Bool
  | [], [] => true
  | a :: as, b :: bs => a.beq b && Stmt.beqTokenList as bs
  | _, _ => false

end

/-! ### interpreter.rs: runtime values

`Rc<RefCell<Environment>>` / `Rc<RefCell<Instance>>` become indices (`Nat`)
into the environment and instance heaps of `InterpreterState`.  `Class` and
`Function` are value types in the source (`Clone` copies them), so they are
plain data here; a `Function` holds the heap index of its closure. -/

inductive NativeFunctionV where
  | clock
  deriving Repr, DecidableEq

mutual

inductive FunctionV where
  | mk (declaration : FunctionDecl) (closure : Nat) (isInitializer : Bool)
  deriving Repr

inductive ClassV where
  | mk (name : String) (superclass : Option ClassV) (methods : List (String × FunctionV))
  deriving Repr

end

def FunctionV.declaration : FunctionV → FunctionDecl
  | .mk d _ _ => d

def FunctionV.closure : FunctionV → Nat
  | .mk _ c _ => c

def FunctionV.isInitializer : FunctionV → Bool
  | .mk _ _ i => i

def ClassV.name : ClassV → String
  | .mk n _ _ => n

def ClassV.superclass : ClassV → Option ClassV
  | .mk _ s _ => s

def ClassV.methods : ClassV → List (String × FunctionV)
  | .mk _ _ m => m

inductive LoxValue where
  | nil
  | boolean (b : Bool)
  | number (x : LoxNum)
  | string (s : String)
  | function (f : FunctionV)
  | nativeFunction (n : NativeFunctionV)
  | classV (c : ClassV)
  | instanceV (r : Nat)
  deriving Repr

structure InstanceData where
  klass : ClassV
  fields : List (String × LoxValue)
  deriving Repr

structure EnvironmentData where
  values : List (String × LoxValue)
  enclosing : Option Nat
  deriving Repr

/-- Association-list stand-in for `HashMap::get`. -/
def lookupStr {α : Type} : List (String × α) → String → Option α
  | [], _ => none
  | (k, v) :: rest, key => if k == key then some v else lookupStr rest key

/-- Association-list stand-in for `HashMap::contains_key`. -/
def containsStr {α : Type} : List (String × α) → String → Bool
  | [], _ => false
  | (k, _) :: rest, key => k == key || containsStr rest key

/-- Association-list stand-in for `HashMap::insert` (replace or add). -/
def setStr {α : Type} : List (String × α) → String → α → List (String × α)
  | [], key, v => [(key, v)]
  | (k, v') :: rest, key, v =>
      if k == key then (key, v) :: rest else (k, v') :: setStr rest key v

/-- The locals side-table (`HashMap<Expr, usize>`), keyed on the program's
own `PartialEq` for expressions. -/
def localsGet : List (Expr × Nat) → Expr → Option Nat
  | [], _ => none
  | (k, d) :: rest, key => if Expr.beq k key then some d else localsGet rest key

def localsInsert : List (Expr × Nat) → Expr → Nat → List (Expr × Nat)
  | [], key, d => [(key, d)]
  | (k, d') :: rest, key, d =>
      if Expr.beq k key then (key, d) :: rest else (k, d') :: localsInsert rest key d

/-- `PartialEq for Function`: unconditionally false in the source. -/
def FunctionV.beq (_f _g : FunctionV) : Bool := false

/-- `PartialEq for NativeFunction`: unconditionally false in the source. -/
def NativeFunctionV.beq (_a _b : NativeFunctionV) : Bool := false

/-- Derived `PartialEq` of the `methods: HashMap<String, Function>` field:
equal lengths and, for every entry, the other map holds an equal value under
the same key — where value equality is `Function`'s always-false equality. -/
def methodsMapBeq (m1 m2 : List (String × FunctionV)) : Bool :=
  m1.length == m2.length &&
    m1.all fun kv =>
      match lookupStr m2 kv.1 with
      | some g => FunctionV.beq kv.2 g
      | none => false

mutual

/-- Derived `PartialEq for Class`: structural on name, superclass, methods. -/
def ClassV.beq : ClassV → ClassV → Bool
  | .mk n1 s1 m1, .mk n2 s2 m2 =>
      n1 == n2 && ClassV.beqOpt s1 s2 && methodsMapBeq m1 m2

def ClassV.beqOpt : Option ClassV → Option ClassV → Bool
  | none, none => true
  | some a, some b => ClassV.beq a b
  | _, _ => false

end

inductive LVJob where
  | vals (a b : LoxValue)
  | fieldsAll (f1 other : List (String × LoxValue))

/-- Worker for `PartialEq` on `LoxValue`.  The `Instance` case dereferences
the instance heap (an `Rc<RefCell<Instance>>` compares its contents, with no
pointer shortcut since `Instance` is not `Eq`), so the recursion is bounded
by fuel; every step consumes fuel, and any fuel at least the total size of
the values compared — unattainable only for cyclic instance graphs, on which
the source itself recurses forever — yields the source's answer. -/
def loxValueBeqAux (heap : List InstanceData) : Nat → LVJob → Bool
  | _, .vals .nil .nil => true
  | _, .vals (.boolean a) (.boolean b) => a == b
  | _, .vals (.number a) (.number b) => a.beq b
  | _, .vals (.string a) (.string b) => a == b
  | _, .vals (.function f) (.function g) => FunctionV.beq f g
  | _, .vals (.nativeFunction a) (.nativeFunction b) => NativeFunctionV.beq a b
  | _, .vals (.classV c) (.classV d) => ClassV.beq c d
  | 0, .vals (.instanceV _) (.instanceV _) => false
  | n+1, .vals (.instanceV i) (.instanceV j) =>
      match heap.get? i, heap.get? j with
      | some d1, some d2 =>
          ClassV.beq d1.klass d2.klass &&
            d1.fields.length == d2.fields.length &&
            loxValueBeqAux heap n (.fieldsAll d1.fields d2.fields)
      | _, _ => false
  | _, .vals _ _ => false
  | _, .fieldsAll [] _ => true
  | 0, .fieldsAll (_ :: _) _ => false
  | n+1, .fieldsAll (kv :: rest) other =>
      (match lookupStr other kv.1 with
       | some v2 => loxValueBeqAux heap n (.vals kv.2 v2)
       | none => false) &&
        loxValueBeqAux heap n (.fieldsAll rest other)

/-- `PartialEq` on `LoxValue` (the meaning of `==` and `!=` in programs). -/
def LoxValue.beq (heap : List InstanceData) (fuel : Nat) (a b : LoxValue) : Bool :=
  loxValueBeqAux heap fuel (.vals a b)

def LoxValue.isTruthy : LoxValue → Bool
  | .nil => false
  | .boolean b => b
  | _ => true

/-- Number display: integral values print without a fractional part, exactly
as `f64`'s `Display` followed by `trim_end_matches(".0")` leaves them.  The
fractional fallback is a stand-in; no theorem displays a fractional value. -/
def LoxNum.display (x : LoxNum) : String :=
  if x.den == 1 then toString x.num
  else toString x.num ++ "/" ++ toString x.den

def LoxValue.display (instHeap : List InstanceData) : LoxValue → String
  | .nil => "nil"
  | .boolean b => if b then "true" else "false"
  | .string s => s
  | .number x => x.display
  | .function f =>
      match f.declaration.name.kind with
      | .identifier id => "Function: " ++ id
      | _ => "Function"
  | .nativeFunction _ => "NativeFunction"
  | .classV c => "Class: " ++ c.name
  | .instanceV r =>
      match instHeap.get? r with
      | some d => "Instance: " ++ d.klass.name
      | none => "Instance"

/-! ### Errors (the `Box<dyn Error>` channel of the evaluator)

The evaluator's error channel carries either a `RuntimeError` or the
`ReturnError` control-flow signal; a `downcast_ref::<ReturnError>()` in the
source corresponds to matching on the constructor here.  `panic` models a
Rust panic (uncatchable), `outOfFuel` is the fuel artifact. -/

inductive RErr where
  | runtimeError (token : Token) (message : String)
  | returnError (value : LoxValue)
  | panic
  | outOfFuel
  deriving Repr

/-- The error line `RuntimeError`'s `Display` produces.  Token rendering is
summarised by the token's line; no theorem inspects the rendered token text. -/
def RErr.isRuntimeError : RErr → Bool
  | .runtimeError _ _ => true
  | _ => false

def RErr.isReturnError : RErr → Bool
  | .returnError _ => true
  | _ => false

/-! ### interpreter state -/

structure InterpreterState where
  envHeap : List EnvironmentData
  instHeap : List InstanceData
  environment : Nat
  globals : Nat
  locals : List (Expr × Nat)
  output : List String
  deriving Repr

/-! ### environment.rs -/

/-- `Environment::define`: insert into the environment's own map. -/
def Environment.define (heap : List EnvironmentData) (r : Nat) (name : String)
    (value : LoxValue) : List EnvironmentData :=
  match heap.get? r with
  | some env => heap.set r { env with values := setStr env.values name value }
  | none => heap

/-- `Environment::get`, walking the enclosing chain outward.  The fuel only
bounds the walk; the chains the interpreter builds always point to strictly
smaller heap indices, so `heap.length + 1` steps suffice. -/
def Environment.getLoop (heap : List EnvironmentData) : Nat → Nat → Token → Except RErr LoxValue
  | 0, _, _ => .error .outOfFuel
  | fuel+1, r, name =>
      match name.kind with
      | .identifier id =>
          match heap.get? r with
          | some env =>
              match lookupStr env.values id with
              | some v => .ok v
              | none =>
                  match env.enclosing with
                  | some e => Environment.getLoop heap fuel e name
                  | none => .error (.runtimeError name ("Undefined variable '" ++ id ++ "'"))
          | none => .error .panic
      | _ => .error (.runtimeError name "Expected identifier to be passed to environment get")

def Environment.get (heap : List EnvironmentData) (r : Nat) (name : Token) :
    Except RErr LoxValue :=
  Environment.getLoop heap (heap.length + 1) r name

/-- `Environment::assign`, walking the enclosing chain outward and updating
in place where the name is found; an unbound name changes nothing. -/
def Environment.assignLoop (heap : List EnvironmentData) :
    Nat → Nat → Token → LoxValue → List EnvironmentData × Except RErr LoxValue
  | 0, _, _, _ => (heap, .error .outOfFuel)
  | fuel+1, r, name, value =>
      match name.kind with
      | .identifier id =>
          match heap.get? r with
          | some env =>
              if containsStr env.values id then
                (heap.set r { env with values := setStr env.values id value }, .ok value)
              else
                match env.enclosing with
                | some e => Environment.assignLoop heap fuel e name value
                | none =>
                    (heap, .error (.runtimeError name ("Undefined variable '" ++ id ++ "'")))
          | none => (heap, .error .panic)
      | _ =>
          (heap, .error (.runtimeError name "Expected identifier to be passed to environment assign"))

def Environment.assign (heap : List EnvironmentData) (r : Nat) (name : Token)
    (value : LoxValue) : List EnvironmentData × Except RErr LoxValue :=
  Environment.assignLoop heap (heap.length + 1) r name value

/-- Modelled from the spec: `Environment::get_at` is called throughout the
interpreter (`look_up_variable`, `Function::call`, `visit_superexpr`) but the
checked-in `environment.rs` is a stale draft that does not define it.  Per
the spec — "if `locals[expr] = d` is present, read from the d-th enclosing
environment" — it follows exactly `distance` enclosing links and reads that
environment's own map, with no outward search.  A name absent there, or a
chain shorter than `distance`, is reported in `Environment::get`'s style as
an undefined variable. -/
def Environment.getAt (heap : List EnvironmentData) : Nat → Nat → Token → Except RErr LoxValue
  | 0, r, name =>
      match name.kind with
      | .identifier id =>
          match heap.get? r with
          | some env =>
              match lookupStr env.values id with
              | some v => .ok v
              | none => .error (.runtimeError name ("Undefined variable '" ++ id ++ "'"))
          | none => .error .panic
      | _ => .error (.runtimeError name "Expected identifier to be passed to environment get")
  | distance+1, r, name =>
      match heap.get? r with
      | some env =>
          match env.enclosing with
          | some e => Environment.getAt heap distance e name
          | none =>
              match name.kind with
              | .identifier id =>
                  .error (.runtimeError name ("Undefined variable '" ++ id ++ "'"))
              | _ => .error (.runtimeError name "Expected identifier to be passed to environment get")
      | none => .error .panic

/-- Modelled from the spec: `Environment::assign_at` (same stale-draft gap as
`get_at`; the spec calls the write path "symmetrical").  It follows exactly
`distance` enclosing links and inserts into that environment's own map. -/
def Environment.assignAt (heap : List EnvironmentData) :
    Nat → Nat → Token → LoxValue → List EnvironmentData × Except RErr LoxValue
  | 0, r, name, value =>
      match name.kind with
      | .identifier id =>
          match heap.get? r with
          | some env =>
              (heap.set r { env with values := setStr env.values id value }, .ok value)
          | none => (heap, .error .panic)
      | _ =>
          (heap, .error (.runtimeError name "Expected identifier to be passed to environment assign"))
  | distance+1, r, name, value =>
      match heap.get? r with
      | some env =>
          match env.enclosing with
          | some e => Environment.assignAt heap distance e name value
          | none =>
              match name.kind with
              | .identifier id =>
                  (heap, .error (.runtimeError name ("Undefined variable '" ++ id ++ "'")))
              | _ =>
                  (heap, .error (.runtimeError name "Expected identifier to be passed to environment assign"))
      | none => (heap, .error .panic)

/-! ### interpreter.rs: pure helpers -/

/-- `evaluate_number_operands`. -/
def Interpreter.evaluateNumberOperands (operator : Token) (left right : LoxValue)
    (operation : LoxNum → LoxNum → LoxValue) : Except RErr LoxValue :=
  match left, right with
  | .number x, .number y => .ok (operation x y)
  | _, _ => .error (.runtimeError operator "Expected two numbers for binary operator")

/-- The operator dispatch of `visit_binary`, applied after both operands have
been evaluated (the match in the source is pure in the operand values).
`valueBeq` is the program's `PartialEq` on values, partially applied to the
current instance heap. -/
def Interpreter.applyBinaryOperator (valueBeq : LoxValue → LoxValue → Bool)
    (operator : Token) (left right : LoxValue) : Except RErr LoxValue :=
  match operator.kind with
  | .minus =>
      Interpreter.evaluateNumberOperands operator left right fun x y => .number (x.sub y)
  | .slash =>
      Interpreter.evaluateNumberOperands operator left right fun x y => .number (x.div y)
  | .star =>
      Interpreter.evaluateNumberOperands operator left right fun x y => .number (x.mul y)
  | .plus =>
      match left, right with
      | .number x, .number y => .ok (.number (x.add y))
      | .string x, .string y => .ok (.string (x ++ y))
      | _, _ => .error (.runtimeError operator "Expected two numbers or two strings")
  | .greater =>
      Interpreter.evaluateNumberOperands operator left right fun x y => .boolean (y.ltb x)
  | .greaterEqual =>
      Interpreter.evaluateNumberOperands operator left right fun x y => .boolean (y.leb x)
  | .less =>
      Interpreter.evaluateNumberOperands operator left right fun x y => .boolean (x.ltb y)
  | .lessEqual =>
      Interpreter.evaluateNumberOperands operator left right fun x y => .boolean (x.leb y)
  | .bangEqual => .ok (.boolean (!valueBeq left right))
  | .equalEqual => .ok (.boolean (valueBeq left right))
  | _ => .error (.runtimeError operator "Expected binary operator")

/-- `Interpreter::look_up_variable`. -/
def Interpreter.lookUpVariable (s : InterpreterState) (name : Token) (expr : Expr) :
    Except RErr LoxValue :=
  match localsGet s.locals expr with
  | some distance => Environment.getAt s.envHeap distance s.environment name
  | none => Environment.get s.envHeap s.globals name

/-- `Class::find_method`: own map first, then the superclass chain. -/
def Class.findMethod : ClassV → String → Option FunctionV
  | .mk _ superclass methods, name =>
      match lookupStr methods name with
      | some m => some m
      | none =>
          match superclass with
          | some sc => Class.findMethod sc name
          | none => none

def Function.arity (f : FunctionV) : Nat := f.declaration.params.length

def Class.arity (c : ClassV) : Nat :=
  match Class.findMethod c "init" with
  | some initializer => Function.arity initializer
  | none => 0

def NativeFunction.arity : Nat := 0

/-- `clock()` reads the wall clock, which is impure; its return value is
modelled as 0 seconds.  No theorem below depends on the value. -/
def NativeFunction.call (s : InterpreterState) (_n : NativeFunctionV)
    (_arguments : List LoxValue) : InterpreterState × Except RErr LoxValue :=
  (s, .ok (.number ⟨0, 1⟩))

/-- `Function::bind`: a fresh environment enclosing the function's closure,
holding only `this`; the returned function shares the declaration and the
`is_initializer` flag. -/
def Function.bind (s : InterpreterState) (f : FunctionV) (inst : Nat) :
    InterpreterState × LoxValue :=
  let ref := s.envHeap.length
  let env : EnvironmentData := ⟨[("this", .instanceV inst)], some f.closure⟩
  ({ s with envHeap := s.envHeap ++ [env] },
   .function (.mk f.declaration ref f.isInitializer))

/-- The parameter-binding loop of `Function::call`.  `arguments[i]` with too
few arguments is an out-of-bounds index, a panic (`visit_call`'s arity check
makes that unreachable); a non-identifier parameter token is the source's
"Expect identifier" runtime error. -/
def Function.bindParameters :
    List Token → List LoxValue → List (String × LoxValue) →
    Except RErr (List (String × LoxValue))
  | [], _, acc => .ok acc
  | _ :: _, [], _ => .error .panic
  | p :: ps, a :: as, acc =>
      match p.kind with
      | .identifier id => Function.bindParameters ps as (setStr acc id a)
      | _ => .error (.runtimeError p "Expect identifier")

/-- `Instance::get`: fields first, then a method bound to the instance, else
"Undefined property".  Binding allocates, hence the state. -/
def Instance.get (s : InterpreterState) (ref : Nat) (name : Token) :
    InterpreterState × Except RErr LoxValue :=
  match s.instHeap.get? ref with
  | none => (s, .error .panic)
  | some data =>
      match name.kind with
      | .identifier id =>
          match lookupStr data.fields id with
          | some v => (s, .ok v)
          | none =>
              match Class.findMethod data.klass id with
              | some m =>
                  match Function.bind s m ref with
                  | (s', fv) => (s', .ok fv)
              | none =>
                  (s, .error (.runtimeError name ("Undefined property '" ++ id ++ "'")))
      | _ => (s, .error (.runtimeError name "Expected identifier"))

/-- `Instance::set`: a non-identifier name token silently does nothing. -/
def Instance.set (s : InterpreterState) (ref : Nat) (name : Token) (value : LoxValue) :
    InterpreterState :=
  match name.kind with
  | .identifier id =>
      match s.instHeap.get? ref with
      | some data =>
          { s with instHeap := s.instHeap.set ref { data with fields := setStr data.fields id value } }
      | none => s
  | _ => s

/-- The method-collection loop of `visit_class`: each method closes over the
current environment, is an initializer exactly when its name is `init`, and
is inserted under its name (non-identifier names are skipped). -/
def Interpreter.collectMethods (env : Nat) :
    List FunctionDecl → List (String × FunctionV) → List (String × FunctionV)
  | [], acc => acc
  | m :: rest, acc =>
      let isInit :=
        match m.name.kind with
        | .identifier id => id == "init"
        | _ => false
      let fn : FunctionV := .mk m env isInit
      match m.name.kind with
      | .identifier nm => Interpreter.collectMethods env rest (setStr acc nm fn)
      | _ => Interpreter.collectMethods env rest acc

/-- The last step of `visit_var`: bind the (evaluated or defaulted) value in
the current environment. -/
def Interpreter.finishVarStmt (s : InterpreterState) (name : Token) (v : LoxValue) :
    InterpreterState × Except RErr Unit :=
  match name.kind with
  | .identifier id =>
      ({ s with envHeap := Environment.define s.envHeap s.environment id v }, .ok ())
  | _ => (s, .error (.runtimeError name "Expected identifier"))

/-- The tail of `visit_class` after the superclass expression (if any) has
been evaluated to a class: define the name to `Nil`, push the `super`
environment when a superclass is present, collect the methods closing over
the current environment, build the class value, assign it to the name, and
restore the enclosing environment when one was pushed.  The `?` on the
assignment sits before the restore, exactly as in the source. -/
def Interpreter.finishClassStmt (s : InterpreterState) (name : Token)
    (superclass : Option ClassV) (methods : List FunctionDecl) :
    InterpreterState × Except RErr Unit :=
  match name.kind with
  | .identifier id =>
      let s1 := { s with envHeap := Environment.define s.envHeap s.environment id .nil }
      let enclosingEnvironment := s1.environment
      let s2 :=
        match superclass with
        | some c =>
            { s1 with
                envHeap := s1.envHeap ++ [(⟨[("super", LoxValue.classV c)], some s1.environment⟩ : EnvironmentData)],
                environment := s1.envHeap.length }
        | none => s1
      let methodsMap := Interpreter.collectMethods s2.environment methods []
      let klass := LoxValue.classV (.mk id superclass methodsMap)
      match Environment.assign s2.envHeap s2.environment name klass with
      | (h, .error e) => ({ s2 with envHeap := h }, .error e)
      | (h, .ok _) =>
          if superclass.isSome then
            ({ s2 with envHeap := h, environment := enclosingEnvironment }, .ok ())
          else ({ s2 with envHeap := h }, .ok ())
  | _ => (s, .error (.runtimeError name "Expected identifier"))

/-- Work items of the evaluator: expression evaluation, statement execution,
the statement-sequence loops (`interpret`, `visit_block`, `Function::call`),
the argument-evaluation loop of `visit_call`, and the two callable entry
points `Function::call` and `Class::call`. -/
inductive Job where
  | eval (e : Expr)
  | exec (st : Stmt)
  | execSeq (stmts : List Stmt)
  | evalArgs (es : List Expr)
  | callFunction (f : FunctionV) (args : List LoxValue)
  | callClass (c : ClassV) (args : List LoxValue)

inductive JOut where
  | val (v : LoxValue)
  | vals (vs : List LoxValue)
  | unitOut
  deriving Repr

set_option maxHeartbeats 1000000

/-- The evaluator.  Each arm is the corresponding `visit_*` method of
`interpreter.rs` (or `Function::call` / `Class::call`); recursion is bounded
by fuel.  An `.ok` payload of the wrong `JOut` shape cannot occur; those
arms return `.panic`. -/
def Interpreter.runJob : Nat → InterpreterState → Job → InterpreterState × Except RErr JOut
  | 0, s, _ => (s, .error .outOfFuel)
  | n+1, s, job =>
    match job with
    | .eval (.literal value) =>
        match value.kind with
        | .kwNil => (s, .ok (.val .nil))
        | .kwTrue => (s, .ok (.val (.boolean true)))
        | .kwFalse => (s, .ok (.val (.boolean false)))
        | .number x => (s, .ok (.val (.number x)))
        | .string str => (s, .ok (.val (.string str)))
        | _ => (s, .error (.runtimeError value "Expected literal"))
    | .eval (.grouping e) => Interpreter.runJob n s (.eval e)
    | .eval (.unary operator right) =>
        match Interpreter.runJob n s (.eval right) with
        | (s1, .ok (.val rv)) =>
            match operator.kind with
            | .minus =>
                match rv with
                | .number x => (s1, .ok (.val (.number x.neg)))
                | _ => (s1, .error (.runtimeError operator "Expected number after unary operator"))
            | .bang => (s1, .ok (.val (.boolean (!rv.isTruthy))))
            | _ => (s1, .error (.runtimeError operator "Expected unary operator"))
        | (s1, .ok _) => (s1, .error .panic)
        | (s1, .error e) => (s1, .error e)
    | .eval (.binary left operator right) =>
        match Interpreter.runJob n s (.eval left) with
        | (s1, .ok (.val lv)) =>
            match Interpreter.runJob n s1 (.eval right) with
            | (s2, .ok (.val rv)) =>
                (s2, (Interpreter.applyBinaryOperator (LoxValue.beq s2.instHeap n)
                        operator lv rv).map .val)
            | (s2, .ok _) => (s2, .error .panic)
            | (s2, .error e) => (s2, .error e)
        | (s1, .ok _) => (s1, .error .panic)
        | (s1, .error e) => (s1, .error e)
    | .eval (.variableE name) =>
        (s, (Interpreter.lookUpVariable s name (.variableE name)).map .val)
    | .eval (.assign name valueExpr) =>
        match Interpreter.runJob n s (.eval valueExpr) with
        | (s1, .ok (.val v)) =>
            match localsGet s1.locals (.assign name valueExpr) with
            | some distance =>
                match Environment.assignAt s1.envHeap distance s1.environment name v with
                | (h, res) => ({ s1 with envHeap := h }, res.map .val)
            | none =>
                match Environment.assign s1.envHeap s1.globals name v with
                | (h, res) => ({ s1 with envHeap := h }, res.map .val)
        | (s1, .ok _) => (s1, .error .panic)
        | (s1, .error e) => (s1, .error e)
    | .eval (.logical left operator right) =>
        match Interpreter.runJob n s (.eval left) with
        | (s1, .ok (.val lv)) =>
            match operator.kind with
            | .kwOr =>
                if lv.isTruthy then (s1, .ok (.val lv))
                else Interpreter.runJob n s1 (.eval right)
            | .kwAnd =>
                if !lv.isTruthy then (s1, .ok (.val lv))
                else Interpreter.runJob n s1 (.eval right)
            | _ => (s1, .error (.runtimeError operator "Expected logical operator"))
        | (s1, .ok _) => (s1, .error .panic)
        | (s1, .error e) => (s1, .error e)
    | .eval (.call callee paren argExprs) =>
        match Interpreter.runJob n s (.eval callee) with
        | (s1, .ok (.val cv)) =>
            match Interpreter.runJob n s1 (.evalArgs argExprs) with
            | (s2, .ok (.vals args)) =>
                match cv with
                | .nativeFunction nf =>
                    if args.length != NativeFunction.arity then
                      (s2, .error (.runtimeError paren
                        ("Expected " ++ toString NativeFunction.arity ++
                         " arguments but got " ++ toString args.length)))
                    else
                      match NativeFunction.call s2 nf args with
                      | (s3, res) => (s3, res.map .val)
                | .function f =>
                    if args.length != Function.arity f then
                      (s2, .error (.runtimeError paren
                        ("Expected " ++ toString (Function.arity f) ++
                         " arguments but got " ++ toString args.length)))
                    else Interpreter.runJob n s2 (.callFunction f args)
                | .classV cl =>
                    if args.length != Class.arity cl then
                      (s2, .error (.runtimeError paren
                        ("Expected " ++ toString (Class.arity cl) ++
                         " arguments but got " ++ toString args.length)))
                    else Interpreter.runJob n s2 (.callClass cl args)
                | _ => (s2, .error (.runtimeError paren "Can only call functions and classes"))
            | (s2, .ok _) => (s2, .error .panic)
            | (s2, .error e) => (s2, .error e)
        | (s1, .ok _) => (s1, .error .panic)
        | (s1, .error e) => (s1, .error e)
    | .eval (.get object name) =>
        match Interpreter.runJob n s (.eval object) with
        | (s1, .ok (.val obj)) =>
            match obj with
            | .instanceV i =>
                match Instance.get s1 i name with
                | (s2, res) => (s2, res.map .val)
            | _ => (s1, .error (.runtimeError name "Only instances have properties"))
        | (s1, .ok _) => (s1, .error .panic)
        | (s1, .error e) => (s1, .error e)
    | .eval (.set object name valueExpr) =>
        match Interpreter.runJob n s (.eval object) with
        | (s1, .ok (.val obj)) =>
            match obj with
            | .instanceV i =>
                match Interpreter.runJob n s1 (.eval valueExpr) with
                | (s2, .ok (.val v)) => (Instance.set s2 i name v, .ok (.val v))
                | (s2, .ok _) => (s2, .error .panic)
                | (s2, .error e) => (s2, .error e)
            | _ => (s1, .error (.runtimeError name "Only instances have fields"))
        | (s1, .ok _) => (s1, .error .panic)
        | (s1, .error e) => (s1, .error e)
    | .eval (.thisE keyword) =>
        (s, (Interpreter.lookUpVariable s ⟨.identifier "this", keyword.line⟩
              (.thisE keyword)).map .val)
    | .eval (.superE keyword method) =>
        match localsGet s.locals (.superE keyword method) with
        | none => (s, .error .panic)
        | some distance =>
            match Environment.getAt s.envHeap distance s.environment
                ⟨.identifier "super", keyword.line⟩ with
            | .error e => (s, .error e)
            | .ok superclassVal =>
                match distance with
                | 0 => (s, .error .panic)
                | dd+1 =>
                    match Environment.getAt s.envHeap dd s.environment
                        ⟨.identifier "this", keyword.line⟩ with
                    | .error e => (s, .error e)
                    | .ok objectVal =>
                        match method.kind with
                        | .identifier methodName =>
                            match superclassVal with
                            | .classV sc =>
                                match Class.findMethod sc methodName with
                                | some m =>
                                    match objectVal with
                                    | .instanceV obj =>
                                        match Function.bind s m obj with
                                        | (s', fv) => (s', .ok (.val fv))
                                    | _ => (s, .error .panic)
                                | none =>
                                    (s, .error (.runtimeError method
                                      ("Undefined property '" ++ methodName ++ "'.")))
                            | _ => (s, .error .panic)
                        | _ => (s, .error .panic)
    | .exec (.block statements) =>
        let previous := s.environment
        let s1 := { s with
                      envHeap := s.envHeap ++ [(⟨[], some previous⟩ : EnvironmentData)],
                      environment := s.envHeap.length }
        match Interpreter.runJob n s1 (.execSeq statements) with
        | (s2, .ok _) => ({ s2 with environment := previous }, .ok .unitOut)
        | (s2, .error e) => ({ s2 with environment := previous }, .error e)
    | .exec (.expression e) =>
        match Interpreter.runJob n s (.eval e) with
        | (s1, .ok _) => (s1, .ok .unitOut)
        | (s1, .error e) => (s1, .error e)
    | .exec (.print e) =>
        match Interpreter.runJob n s (.eval e) with
        | (s1, .ok (.val v)) =>
            ({ s1 with output := s1.output ++ [LoxValue.display s1.instHeap v] }, .ok .unitOut)
        | (s1, .ok _) => (s1, .error .panic)
        | (s1, .error e) => (s1, .error e)
    | .exec (.var name initializer) =>
        match initializer with
        | some e =>
            match Interpreter.runJob n s (.eval e) with
            | (s1, .ok (.val v)) =>
                match Interpreter.finishVarStmt s1 name v with
                | (s2, res) => (s2, res.map fun _ => .unitOut)
            | (s1, .ok _) => (s1, .error .panic)
            | (s1, .error e) => (s1, .error e)
        | none =>
            match Interpreter.finishVarStmt s name .nil with
            | (s1, res) => (s1, res.map fun _ => .unitOut)
    | .exec (.ifStmt condition thenBranch elseBranch) =>
        match Interpreter.runJob n s (.eval condition) with
        | (s1, .ok (.val c)) =>
            if c.isTruthy then Interpreter.runJob n s1 (.exec thenBranch)
            else
              match elseBranch with
              | some st => Interpreter.runJob n s1 (.exec st)
              | none => (s1, .ok .unitOut)
        | (s1, .ok _) => (s1, .error .panic)
        | (s1, .error e) => (s1, .error e)
    | .exec (.whileStmt condition body) =>
        match Interpreter.runJob n s (.eval condition) with
        | (s1, .ok (.val c)) =>
            if c.isTruthy then
              match Interpreter.runJob n s1 (.exec body) with
              | (s2, .ok _) => Interpreter.runJob n s2 (.exec (.whileStmt condition body))
              | (s2, .error e) => (s2, .error e)
            else (s1, .ok .unitOut)
        | (s1, .ok _) => (s1, .error .panic)
        | (s1, .error e) => (s1, .error e)
    | .exec (.function f) =>
        let fn := LoxValue.function (.mk f s.environment false)
        match f.name.kind with
        | .identifier id =>
            ({ s with envHeap := Environment.define s.envHeap s.environment id fn }, .ok .unitOut)
        | _ => (s, .error (.runtimeError f.name "Expect identifier"))
    | .exec (.returnStmt _keyword value) =>
        match value with
        | some e =>
            match Interpreter.runJob n s (.eval e) with
            | (s1, .ok (.val v)) => (s1, .error (.returnError v))
            | (s1, .ok _) => (s1, .error .panic)
            | (s1, .error e) => (s1, .error e)
        | none => (s, .error (.returnError .nil))
    | .exec (.classStmt name superclassExpr methods) =>
        match superclassExpr with
        | some sc =>
            match sc with
            | .variableE scName =>
                match Interpreter.runJob n s (.eval sc) with
                | (s1, .ok (.val scv)) =>
                    match scv with
                    | .classV c =>
                        match Interpreter.finishClassStmt s1 name (some c) methods with
                        | (s2, res) => (s2, res.map fun _ => .unitOut)
                    | _ => (s1, .error (.runtimeError scName "Superclass must be a class."))
                | (s1, .ok _) => (s1, .error .panic)
                | (s1, .error e) => (s1, .error e)
            | _ => (s, .error .panic)
        | none =>
            match Interpreter.finishClassStmt s name none methods with
            | (s1, res) => (s1, res.map fun _ => .unitOut)
    | .execSeq [] => (s, .ok .unitOut)
    | .execSeq (st :: rest) =>
        match Interpreter.runJob n s (.exec st) with
        | (s1, .ok _) => Interpreter.runJob n s1 (.execSeq rest)
        | (s1, .error e) => (s1, .error e)
    | .evalArgs [] => (s, .ok (.vals []))
    | .evalArgs (e :: rest) =>
        match Interpreter.runJob n s (.eval e) with
        | (s1, .ok (.val v)) =>
            match Interpreter.runJob n s1 (.evalArgs rest) with
            | (s2, .ok (.vals vs)) => (s2, .ok (.vals (v :: vs)))
            | (s2, .ok _) => (s2, .error .panic)
            | (s2, .error e) => (s2, .error e)
        | (s1, .ok _) => (s1, .error .panic)
        | (s1, .error e) => (s1, .error e)
    | .callFunction f args =>
        match Function.bindParameters f.declaration.params args [] with
        | .error e => (s, .error e)
        | .ok values =>
            let previous := s.environment
            let s1 := { s with
                          envHeap := s.envHeap ++ [(⟨values, some f.closure⟩ : EnvironmentData)],
                          environment := s.envHeap.length }
            match Interpreter.runJob n s1 (.execSeq f.declaration.body) with
            | (s2, .ok _) =>
                let s3 := { s2 with environment := previous }
                if f.isInitializer then
                  (s3, (Environment.getAt s3.envHeap 0 f.closure ⟨.identifier "this", 0⟩).map .val)
                else (s3, .ok (.val .nil))
            | (s2, .error e) =>
                let s3 := { s2 with environment := previous }
                match e with
                | .returnError v =>
                    if f.isInitializer then
                      (s3, (Environment.getAt s3.envHeap 0 f.closure
                              ⟨.identifier "this", 0⟩).map .val)
                    else (s3, .ok (.val v))
                | _ => (s3, .error e)
    | .callClass c args =>
        let ref := s.instHeap.length
        let s1 := { s with instHeap := s.instHeap ++ [(⟨c, []⟩ : InstanceData)] }
        match Class.findMethod c "init" with
        | some initializer =>
            match Function.bind s1 initializer ref with
            | (s2, .function fn) =>
                match Interpreter.runJob n s2 (.callFunction fn args) with
                | (s3, _) => (s3, .ok (.val (.instanceV ref)))
            | (s2, _) => (s2, .ok (.val (.instanceV ref)))
        | none => (s1, .ok (.val (.instanceV ref)))

/-- `Interpreter::interpret`: run the statements in order, stopping at the
first error. -/
def Interpreter.interpret (fuel : Nat) (s : InterpreterState) (statements : List Stmt) :
    InterpreterState × Except RErr Unit :=
  match Interpreter.runJob fuel s (.execSeq statements) with
  | (s', .ok _) => (s', .ok ())
  | (s', .error e) => (s', .error e)

/-- `Interpreter::default`: a globals environment holding `clock`, with the
current environment aliasing it. -/
def Interpreter.defaultState : InterpreterState :=
  { envHeap := [⟨[("clock", .nativeFunction .clock)], none⟩],
    instHeap := [], environment := 0, globals := 0, locals := [], output := [] }

/-! ### resolver.rs

The resolver's scope stack is a Rust `Vec` pushed/popped at the end; here the
head of the list is the top of the stack (the innermost scope).  The distance
`scopes.len() - 1 - i` recorded for a match at `Vec` index `i` is exactly the
position of the matching scope counted from the innermost, which is how
`resolveLocal` below counts.  `Lox::error` prints a diagnostic and returns;
diagnostics accumulate in `diags`.  The two `unreachable!` arms of
`visit_class` set `panicked` (a Rust panic; no program built by the parser
reaches them). -/

inductive FunctionKind where
  | none | function | initializer | method
  deriving Repr, DecidableEq

inductive ClassKind where
  | none | classC
  deriving Repr, DecidableEq

structure ResolverState where
  scopes : List (List (String × Bool))
  currentFunction : FunctionKind
  currentClass : ClassKind
  locals : List (Expr × Nat)
  diags : List (Token × String)
  panicked : Bool
  deriving Repr

def Resolver.initialState : ResolverState :=
  ⟨[], .none, .none, [], [], false⟩

def Resolver.reportError (s : ResolverState) (t : Token) (m : String) : ResolverState :=
  { s with diags := s.diags ++ [(t, m)] }

def Resolver.beginScope (s : ResolverState) : ResolverState :=
  { s with scopes := [] :: s.scopes }

def Resolver.endScope (s : ResolverState) : ResolverState :=
  { s with scopes := s.scopes.tail }

/-- `Resolver::declare`: in the innermost scope, report shadowing in the same
scope and insert the name as not-yet-defined. -/
def Resolver.declare (s : ResolverState) (name : Token) : ResolverState :=
  match s.scopes with
  | [] => s
  | scope :: rest =>
      match name.kind with
      | .identifier id =>
          let s1 :=
            if containsStr scope id then
              Resolver.reportError s name "Already a variable with this name in this scope."
            else s
          { s1 with scopes := setStr scope id false :: rest }
      | _ => s

/-- `Resolver::define`: mark the name defined in the innermost scope. -/
def Resolver.define (s : ResolverState) (name : Token) : ResolverState :=
  match s.scopes with
  | [] => s
  | scope :: rest =>
      match name.kind with
      | .identifier id => { s with scopes := setStr scope id true :: rest }
      | _ => s

/-- The scan of `resolve_local`, innermost scope first; `j` is the number of
scopes already passed, which on the first match is the recorded distance. -/
def Resolver.resolveLocalLoop (s : ResolverState) (expr : Expr) (id : String) :
    Nat → List (List (String × Bool)) → ResolverState
  | _, [] => s
  | j, scope :: rest =>
      if containsStr scope id then { s with locals := localsInsert s.locals expr j }
      else Resolver.resolveLocalLoop s expr id (j+1) rest

/-- `Resolver::resolve_local`: record the distance of the innermost scope
containing the name, keyed on the expression (the interpreter's
`resolve`); no scope match records nothing. -/
def Resolver.resolveLocal (s : ResolverState) (expr : Expr) (name : Token) : ResolverState :=
  match name.kind with
  | .identifier id => Resolver.resolveLocalLoop s expr id 0 s.scopes
  | _ => s

def Resolver.declareDefineParams (s : ResolverState) : List Token → ResolverState
  | [] => s
  | p :: rest =>
      Resolver.declareDefineParams (Resolver.define (Resolver.declare s p) p) rest

inductive RJob where
  | rexpr (e : Expr)
  | rstmt (st : Stmt)
  | rstmts (l : List Stmt)
  | rexprs (l : List Expr)
  | rfunction (f : FunctionDecl) (kind : FunctionKind)
  | rmethods (l : List FunctionDecl)

/-- The resolver pass.  Fuel only bounds the structural recursion; any fuel
at least the AST depth returns the fixed point the source computes. -/
def Resolver.runJob : Nat → ResolverState → RJob → ResolverState
  | 0, s, _ => s
  | n+1, s, job =>
    match job with
    | .rstmts [] => s
    | .rstmts (st :: rest) =>
        Resolver.runJob n (Resolver.runJob n s (.rstmt st)) (.rstmts rest)
    | .rexprs [] => s
    | .rexprs (e :: rest) =>
        Resolver.runJob n (Resolver.runJob n s (.rexpr e)) (.rexprs rest)
    | .rstmt (.block statements) =>
        Resolver.endScope (Resolver.runJob n (Resolver.beginScope s) (.rstmts statements))
    | .rstmt (.var name initializer) =>
        let s1 := Resolver.declare s name
        let s2 :=
          match initializer with
          | some e => Resolver.runJob n s1 (.rexpr e)
          | none => s1
        Resolver.define s2 name
    | .rstmt (.function f) =>
        Resolver.runJob n (Resolver.define (Resolver.declare s f.name) f.name)
          (.rfunction f .function)
    | .rstmt (.expression e) => Resolver.runJob n s (.rexpr e)
    | .rstmt (.print e) => Resolver.runJob n s (.rexpr e)
    | .rstmt (.ifStmt condition thenBranch elseBranch) =>
        let s1 := Resolver.runJob n s (.rexpr condition)
        let s2 := Resolver.runJob n s1 (.rstmt thenBranch)
        match elseBranch with
        | some st => Resolver.runJob n s2 (.rstmt st)
        | none => s2
    | .rstmt (.returnStmt keyword value) =>
        let s1 :=
          if s.currentFunction == .none then
            Resolver.reportError s keyword "Can't return from top-level code."
          else s
        match value with
        | some v =>
            let s2 :=
              if s1.currentFunction == .initializer then
                Resolver.reportError s1 keyword "Can't return a value from an initializer."
              else s1
            Resolver.runJob n s2 (.rexpr v)
        | none => s1
    | .rstmt (.whileStmt condition body) =>
        Resolver.runJob n (Resolver.runJob n s (.rexpr condition)) (.rstmt body)
    | .rstmt (.classStmt name superclass methods) =>
        let enclosingClass := s.currentClass
        let s1 := { s with currentClass := .classC }
        let s2 := Resolver.define (Resolver.declare s1 name) name
        let s3 :=
          match superclass with
          | some sc =>
              let className :=
                match name.kind with
                | .identifier id => id
                | _ => ""
              let sA :=
                match sc with
                | .variableE v =>
                    match v.kind with
                    | .identifier id =>
                        if className == id then
                          Resolver.reportError s2 v "A class can't inherit from itself."
                        else s2
                    | _ => { s2 with panicked := true }
                | _ => { s2 with panicked := true }
              let sB := Resolver.runJob n sA (.rexpr sc)
              { sB with scopes := [("super", true)] :: sB.scopes }
          | none => s2
        let s4 := { s3 with scopes := [("this", true)] :: s3.scopes }
        let s5 := Resolver.runJob n s4 (.rmethods methods)
        let s6 := Resolver.endScope s5
        let s7 := if superclass.isSome then Resolver.endScope s6 else s6
        { s7 with currentClass := enclosingClass }
    | .rmethods [] => s
    | .rmethods (m :: rest) =>
        let kind :=
          match m.name.kind with
          | .identifier id => if id == "init" then FunctionKind.initializer else .method
          | _ => FunctionKind.method
        Resolver.runJob n (Resolver.runJob n s (.rfunction m kind)) (.rmethods rest)
    | .rfunction f kind =>
        let enclosingFunction := s.currentFunction
        let s1 := Resolver.beginScope { s with currentFunction := kind }
        let s2 := Resolver.declareDefineParams s1 f.params
        let s3 := Resolver.runJob n s2 (.rstmts f.body)
        let s4 := Resolver.endScope s3
        { s4 with currentFunction := enclosingFunction }
    | .rexpr (.variableE name) =>
        let s1 :=
          match s.scopes with
          | [] => s
          | scope :: _ =>
              match name.kind with
              | .identifier id =>
                  match lookupStr scope id with
                  | some flag =>
                      if flag == false then
                        Resolver.reportError s name
                          "Can't read local variable in its own initializer"
                      else s
                  | none => s
              | _ => s
        Resolver.resolveLocal s1 (.variableE name) name
    | .rexpr (.assign name value) =>
        Resolver.resolveLocal (Resolver.runJob n s (.rexpr value)) (.assign name value) name
    | .rexpr (.binary left _ right) =>
        Resolver.runJob n (Resolver.runJob n s (.rexpr left)) (.rexpr right)
    | .rexpr (.call callee _ args) =>
        Resolver.runJob n (Resolver.runJob n s (.rexpr callee)) (.rexprs args)
    | .rexpr (.grouping e) => Resolver.runJob n s (.rexpr e)
    | .rexpr (.literal _) => s
    | .rexpr (.logical left _ right) =>
        Resolver.runJob n (Resolver.runJob n s (.rexpr left)) (.rexpr right)
    | .rexpr (.unary _ right) => Resolver.runJob n s (.rexpr right)
    | .rexpr (.get object _) => Resolver.runJob n s (.rexpr object)
    | .rexpr (.set object _ value) =>
        Resolver.runJob n (Resolver.runJob n s (.rexpr value)) (.rexpr object)
    | .rexpr (.thisE keyword) =>
        if s.currentClass == .none then
          Resolver.reportError s keyword "Can't use 'this' outside of a class."
        else
          Resolver.resolveLocal s (.thisE keyword) ⟨.identifier "this", keyword.line⟩
    | .rexpr (.superE keyword method) =>
        Resolver.resolveLocal s (.superE keyword method) ⟨.identifier "super", keyword.line⟩

/-- `Resolver::resolve` over a statement list. -/
def Resolver.resolve (fuel : Nat) (s : ResolverState) (statements : List Stmt) : ResolverState :=
  Resolver.runJob fuel s (.rstmts statements)

/-! ### scanner.rs -/

inductive ScanErr where
  | invalidCharacter (c : Char) (line : Nat)
  | unterminatedString (line : Nat)
  | outOfFuel
  deriving Repr

structure ScannerState where
  source : List Char
  index : Nat
  line : Nat
  currentChar : Option Char
  deriving Repr

def Scanner.new (source : String) : ScannerState :=
  let cs := source.toList
  { source := cs, index := 0, line := 1, currentChar := cs.get? 0 }

def Scanner.getNextCharacter (s : ScannerState) : ScannerState :=
  let i := s.index + 1
  { s with index := i, currentChar := s.source.get? i }

def Scanner.peekNextCharacter (s : ScannerState) : Option Char :=
  s.source.get? (s.index + 1)

def Scanner.isAsciiDigit (c : Char) : Bool :=
  48 ≤ c.toNat && c.toNat ≤ 57

def Scanner.isAsciiAlphabetic (c : Char) : Bool :=
  (65 ≤ c.toNat && c.toNat ≤ 90) || (97 ≤ c.toNat && c.toNat ≤ 122)

def Scanner.isAsciiAlphanumeric (c : Char) : Bool :=
  Scanner.isAsciiDigit c || Scanner.isAsciiAlphabetic c

def Scanner.digitsToNat : List Char → Nat → Nat
  | [], acc => acc
  | c :: rest, acc => Scanner.digitsToNat rest (acc * 10 + (c.toNat - 48))

def Scanner.splitDot : List Char → List Char × List Char
  | [] => ([], [])
  | c :: rest =>
      if c = '.' then ([], rest)
      else
        match Scanner.splitDot rest with
        | (a, b) => (c :: a, b)

/-- The value `parse::<f64>()` gives the collected number characters,
as an exact fraction `mant / 10^k` for `k` fraction digits. -/
def Scanner.numberFromChars (cs : List Char) : LoxNum :=
  match Scanner.splitDot cs with
  | (ip, fp) =>
      let k := fp.length
      ⟨(Scanner.digitsToNat ip 0 * 10 ^ k + Scanner.digitsToNat fp 0 : Nat), ((10 ^ k : Nat) : Int)⟩

/-- The reserved-word table at the end of `get_id`. -/
def Scanner.idToken (id : String) (line : Nat) : Token :=
  match id with
  | "and" => ⟨.kwAnd, line⟩
  | "class" => ⟨.kwClass, line⟩
  | "else" => ⟨.kwElse, line⟩
  | "false" => ⟨.kwFalse, line⟩
  | "for" => ⟨.kwFor, line⟩
  | "fun" => ⟨.kwFun, line⟩
  | "if" => ⟨.kwIf, line⟩
  | "nil" => ⟨.kwNil, line⟩
  | "or" => ⟨.kwOr, line⟩
  | "print" => ⟨.kwPrint, line⟩
  | "return" => ⟨.kwReturn, line⟩
  | "super" => ⟨.kwSuper, line⟩
  | "this" => ⟨.kwThis, line⟩
  | "true" => ⟨.kwTrue, line⟩
  | "var" => ⟨.kwVar, line⟩
  | "while" => ⟨.kwWhile, line⟩
  | _ => ⟨.identifier id, line⟩

inductive SJob where
  | next
  | skipComment
  | getString (acc : List Char)
  | getNumberInt (acc : List Char)
  | getNumberFrac (acc : List Char)
  | getId (acc : List Char)

inductive SOut where
  | tok (t : Token)
  | unitOut
  deriving Repr

/-- `Scanner::get_next_token` and its internal loops (`skip_comment`,
`get_string`, `get_number`, `get_id`). -/
def Scanner.runScan : Nat → ScannerState → SJob → ScannerState × Except ScanErr SOut
  | 0, s, _ => (s, .error .outOfFuel)
  | n+1, s, job =>
    match job with
    | .next =>
        match s.currentChar with
        | none => (s, .ok (.tok ⟨.eof, s.line⟩))
        | some c =>
            match c with
            | '(' => let s1 := Scanner.getNextCharacter s; (s1, .ok (.tok ⟨.leftParen, s1.line⟩))
            | ')' => let s1 := Scanner.getNextCharacter s; (s1, .ok (.tok ⟨.rightParen, s1.line⟩))
            | '{' => let s1 := Scanner.getNextCharacter s; (s1, .ok (.tok ⟨.leftBrace, s1.line⟩))
            | '}' => let s1 := Scanner.getNextCharacter s; (s1, .ok (.tok ⟨.rightBrace, s1.line⟩))
            | ',' => let s1 := Scanner.getNextCharacter s; (s1, .ok (.tok ⟨.comma, s1.line⟩))
            | '.' => let s1 := Scanner.getNextCharacter s; (s1, .ok (.tok ⟨.dot, s1.line⟩))
            | '-' => let s1 := Scanner.getNextCharacter s; (s1, .ok (.tok ⟨.minus, s1.line⟩))
            | '+' => let s1 := Scanner.getNextCharacter s; (s1, .ok (.tok ⟨.plus, s1.line⟩))
            | ';' => let s1 := Scanner.getNextCharacter s; (s1, .ok (.tok ⟨.semicolon, s1.line⟩))
            | '*' => let s1 := Scanner.getNextCharacter s; (s1, .ok (.tok ⟨.star, s1.line⟩))
            | '!' =>
                match Scanner.peekNextCharacter s with
                | some '=' =>
                    let s1 := Scanner.getNextCharacter (Scanner.getNextCharacter s)
                    (s1, .ok (.tok ⟨.bangEqual, s1.line⟩))
                | _ =>
                    let s1 := Scanner.getNextCharacter s
                    (s1, .ok (.tok ⟨.bang, s1.line⟩))
            | '=' =>
                match Scanner.peekNextCharacter s with
                | some '=' =>
                    let s1 := Scanner.getNextCharacter (Scanner.getNextCharacter s)
                    (s1, .ok (.tok ⟨.equalEqual, s1.line⟩))
                | _ =>
                    let s1 := Scanner.getNextCharacter s
                    (s1, .ok (.tok ⟨.equal, s1.line⟩))
            | '<' =>
                match Scanner.peekNextCharacter s with
                | some '=' =>
                    let s1 := Scanner.getNextCharacter (Scanner.getNextCharacter s)
                    (s1, .ok (.tok ⟨.lessEqual, s1.line⟩))
                | _ =>
                    let s1 := Scanner.getNextCharacter s
                    (s1, .ok (.tok ⟨.less, s1.line⟩))
            | '>' =>
                match Scanner.peekNextCharacter s with
                | some '=' =>
                    let s1 := Scanner.getNextCharacter (Scanner.getNextCharacter s)
                    (s1, .ok (.tok ⟨.greaterEqual, s1.line⟩))
                | _ =>
                    let s1 := Scanner.getNextCharacter s
                    (s1, .ok (.tok ⟨.greater, s1.line⟩))
            | '/' =>
                match Scanner.peekNextCharacter s with
                | some '/' =>
                    let s1 := Scanner.getNextCharacter (Scanner.getNextCharacter s)
                    match Scanner.runScan n s1 .skipComment with
                    | (s2, .ok _) => Scanner.runScan n s2 .next
                    | (s2, .error e) => (s2, .error e)
                | _ =>
                    let s1 := Scanner.getNextCharacter s
                    (s1, .ok (.tok ⟨.slash, s1.line⟩))
            | '\n' =>
                Scanner.runScan n (Scanner.getNextCharacter { s with line := s.line + 1 }) .next
            | ' ' => Scanner.runScan n (Scanner.getNextCharacter s) .next
            | '\r' => Scanner.runScan n (Scanner.getNextCharacter s) .next
            | '\t' => Scanner.runScan n (Scanner.getNextCharacter s) .next
            | '"' => Scanner.runScan n (Scanner.getNextCharacter s) (.getString [])
            | other =>
                if Scanner.isAsciiDigit other then
                  Scanner.runScan n s (.getNumberInt [])
                else if Scanner.isAsciiAlphabetic other || other = '_' then
                  Scanner.runScan n s (.getId [])
                else
                  let s1 := Scanner.getNextCharacter s
                  (s1, .error (.invalidCharacter other s1.line))
    | .skipComment =>
        match s.currentChar with
        | some c =>
            if c = '\n' then (s, .ok .unitOut)
            else Scanner.runScan n (Scanner.getNextCharacter s) .skipComment
        | none => (s, .ok .unitOut)
    | .getString acc =>
        match s.currentChar with
        | some c =>
            if c = '"' then
              let s1 := Scanner.getNextCharacter s
              (s1, .ok (.tok ⟨.string (String.mk acc), s1.line⟩))
            else Scanner.runScan n (Scanner.getNextCharacter s) (.getString (acc ++ [c]))
        | none => (s, .error (.unterminatedString s.line))
    | .getNumberInt acc =>
        match s.currentChar with
        | some c =>
            if Scanner.isAsciiDigit c then
              Scanner.runScan n (Scanner.getNextCharacter s) (.getNumberInt (acc ++ [c]))
            else if c = '.' &&
                (match Scanner.peekNextCharacter s with
                 | some d => Scanner.isAsciiDigit d
                 | none => false) then
              Scanner.runScan n (Scanner.getNextCharacter s) (.getNumberFrac (acc ++ ['.']))
            else (s, .ok (.tok ⟨.number (Scanner.numberFromChars acc), s.line⟩))
        | none => (s, .ok (.tok ⟨.number (Scanner.numberFromChars acc), s.line⟩))
    | .getNumberFrac acc =>
        match s.currentChar with
        | some c =>
            if Scanner.isAsciiDigit c then
              Scanner.runScan n (Scanner.getNextCharacter s) (.getNumberFrac (acc ++ [c]))
            else (s, .ok (.tok ⟨.number (Scanner.numberFromChars acc), s.line⟩))
        | none => (s, .ok (.tok ⟨.number (Scanner.numberFromChars acc), s.line⟩))
    | .getId acc =>
        match s.currentChar with
        | some c =>
            if Scanner.isAsciiAlphanumeric c || c = '_' then
              Scanner.runScan n (Scanner.getNextCharacter s) (.getId (acc ++ [c]))
            else (s, .ok (.tok (Scanner.idToken (String.mk acc) s.line)))
        | none => (s, .ok (.tok (Scanner.idToken (String.mk acc) s.line)))

/-- Pre-tokenisation bridge: the parser pulls tokens on demand in the source;
collecting them up front (ending with the first `Eof`) yields the same parse
whenever scanning succeeds, and a scan error aborts the parse in both views. -/
def Scanner.scanTokens : Nat → ScannerState → List Token → Except ScanErr (List Token)
  | 0, _, _ => .error .outOfFuel
  | n+1, s, acc =>
      match Scanner.runScan n s .next with
      | (s', .ok (.tok t)) =>
          match t.kind with
          | .eof => .ok (acc ++ [t])
          | _ => Scanner.scanTokens n s' (acc ++ [t])
      | (_, .ok .unitOut) => .error .outOfFuel
      | (_, .error e) => .error e

def Scanner.scan (fuel : Nat) (source : String) : Except ScanErr (List Token) :=
  Scanner.scanTokens fuel (Scanner.new source) []

/-! ### parser.rs

The parser holds the scanner and a one-token lookahead; here the unconsumed
tokens are the pre-scanned list `rest` and `advance` is `get_next_token`
(repeating `Eof` past the end, as the scanner does at end of input).
Non-fatal diagnostics printed through `Lox::error` (too many
parameters/arguments, invalid assignment target, and the errors caught by
`parse`'s loop) accumulate in `diags`. -/

inductive PErr where
  | parserError (token : Token) (message : String)
  | outOfFuel
  deriving Repr

structure PState where
  currentToken : Token
  rest : List Token
  diags : List (Token × String)
  deriving Repr

def Parser.advance (p : PState) : PState :=
  match p.rest with
  | [] => { p with currentToken := ⟨.eof, p.currentToken.line⟩ }
  | t :: ts => { p with currentToken := t, rest := ts }

def Parser.reportError (p : PState) (t : Token) (m : String) : PState :=
  { p with diags := p.diags ++ [(t, m)] }

inductive ParserFunctionKind where
  | function | method
  deriving Repr, DecidableEq

def ParserFunctionKind.display : ParserFunctionKind → String
  | .function => "function"
  | .method => "method"

/-- The `for` desugaring tail of `for_statement` (source lines 510–523): wrap
the body with the increment when present, wrap in the `while`, and wrap with
the initializer when present. -/
def Parser.assembleFor (initializer : Option Stmt) (condition : Expr)
    (increment : Option Expr) (body : Stmt) : Stmt :=
  let body1 :=
    match increment with
    | some inc => Stmt.block [body, .expression inc]
    | none => body
  let body2 := Stmt.whileStmt condition body1
  match initializer with
  | some init => Stmt.block [init, body2]
  | none => body2

inductive POut where
  | stmt (s : Stmt)
  | stmts (l : List Stmt)
  | expr (e : Expr)
  | fdecls (l : List FunctionDecl)
  | toks (l : List Token)
  | unitOut
  deriving Repr

inductive PJob where
  | declaration
  | varDeclaration
  | functionJ (kind : ParserFunctionKind)
  | parametersLoop (kind : ParserFunctionKind) (name : Token) (acc : List Token)
  | functionBody (kind : ParserFunctionKind) (name : Token) (params : List Token)
  | classDeclaration
  | classMethodsLoop (name : Token) (superclass : Option Expr) (acc : List FunctionDecl)
  | statement
  | printStatement
  | blockJ
  | blockLoop (acc : List Stmt)
  | ifStatement
  | whileStatement
  | forStatement
  | returnStatement
  | expressionStatement
  | expression
  | assignment
  | orExpr
  | orLoop (e : Expr)
  | andExpr
  | andLoop (e : Expr)
  | equality
  | equalityLoop (e : Expr)
  | comparison
  | comparisonLoop (e : Expr)
  | term
  | termLoop (e : Expr)
  | factor
  | factorLoop (e : Expr)
  | unaryJ
  | callExpr
  | callLoop (e : Expr)
  | finishCall (callee : Expr)
  | argumentsLoop (callee : Expr) (acc : List Expr)
  | primary
  | synchronize
  | synchronizeLoop
  | parseLoop (acc : List Stmt)

/-- The recursive-descent parser.  Each arm transcribes the method of
`parser.rs` of the same name (`*Loop` arms are the `while`/`loop` bodies).
An `.ok` payload of the wrong `POut` shape cannot occur; those arms return
the fuel artifact. -/
def Parser.runParser : Nat → PState → PJob → PState × Except PErr POut
  | 0, p, _ => (p, .error .outOfFuel)
  | n+1, p, job =>
    match job with
    | .parseLoop acc =>
        match p.currentToken.kind with
        | .eof => (p, .ok (.stmts acc))
        | _ =>
            match Parser.runParser n p .declaration with
            | (p1, .ok (.stmt st)) => Parser.runParser n p1 (.parseLoop (acc ++ [st]))
            | (p1, .ok _) => (p1, .error .outOfFuel)
            | (p1, .error (.parserError t m)) =>
                Parser.runParser n (Parser.reportError p1 t m) (.parseLoop acc)
            | (p1, .error e) => (p1, .error e)
    | .declaration =>
        match p.currentToken.kind with
        | .kwVar =>
            match Parser.runParser n (Parser.advance p) .varDeclaration with
            | (p1, .ok out) => (p1, .ok out)
            | (p1, .error (.parserError t m)) =>
                match Parser.runParser n p1 .synchronize with
                | (p2, .ok _) => (p2, .error (.parserError t m))
                | (p2, .error e2) => (p2, .error e2)
            | (p1, .error e) => (p1, .error e)
        | .kwFun =>
            match Parser.runParser n (Parser.advance p) (.functionJ .function) with
            | (p1, .ok out) => (p1, .ok out)
            | (p1, .error (.parserError t m)) =>
                match Parser.runParser n p1 .synchronize with
                | (p2, .ok _) => (p2, .error (.parserError t m))
                | (p2, .error e2) => (p2, .error e2)
            | (p1, .error e) => (p1, .error e)
        | .kwClass =>
            match Parser.runParser n (Parser.advance p) .classDeclaration with
            | (p1, .ok out) => (p1, .ok out)
            | (p1, .error (.parserError t m)) =>
                match Parser.runParser n p1 .synchronize with
                | (p2, .ok _) => (p2, .error (.parserError t m))
                | (p2, .error e2) => (p2, .error e2)
            | (p1, .error e) => (p1, .error e)
        | _ =>
            match Parser.runParser n p .statement with
            | (p1, .ok out) => (p1, .ok out)
            | (p1, .error (.parserError t m)) =>
                match Parser.runParser n p1 .synchronize with
                | (p2, .ok _) => (p2, .error (.parserError t m))
                | (p2, .error e2) => (p2, .error e2)
            | (p1, .error e) => (p1, .error e)
    | .synchronize => Parser.runParser n (Parser.advance p) .synchronizeLoop
    | .synchronizeLoop =>
        match p.currentToken.kind with
        | .eof => (p, .ok .unitOut)
        | .semicolon => (Parser.advance p, .ok .unitOut)
        | .kwClass => (p, .ok .unitOut)
        | .kwFun => (p, .ok .unitOut)
        | .kwVar => (p, .ok .unitOut)
        | .kwFor => (p, .ok .unitOut)
        | .kwIf => (p, .ok .unitOut)
        | .kwWhile => (p, .ok .unitOut)
        | .kwPrint => (p, .ok .unitOut)
        | .kwReturn => (p, .ok .unitOut)
        | _ => Parser.runParser n (Parser.advance p) .synchronizeLoop
    | .varDeclaration =>
        match p.currentToken.kind with
        | .identifier _ =>
            let name := p.currentToken
            let p1 := Parser.advance p
            match p1.currentToken.kind with
            | .equal =>
                match Parser.runParser n (Parser.advance p1) .expression with
                | (p2, .ok (.expr e)) =>
                    match p2.currentToken.kind with
                    | .semicolon => (Parser.advance p2, .ok (.stmt (.var name (some e))))
                    | _ =>
                        (p2, .error (.parserError p2.currentToken
                          "Expected ';' after variable declaration"))
                | (p2, .ok _) => (p2, .error .outOfFuel)
                | (p2, .error e) => (p2, .error e)
            | .semicolon => (Parser.advance p1, .ok (.stmt (.var name none)))
            | _ =>
                (p1, .error (.parserError p1.currentToken
                  "Expected ';' after variable declaration"))
        | _ => (p, .error (.parserError p.currentToken "Expected variable name"))
    | .functionJ kind =>
        match p.currentToken.kind with
        | .identifier _ =>
            let name := p.currentToken
            let p1 := Parser.advance p
            match p1.currentToken.kind with
            | .leftParen =>
                let p2 := Parser.advance p1
                match p2.currentToken.kind with
                | .rightParen => Parser.runParser n p2 (.functionBody kind name [])
                | _ => Parser.runParser n p2 (.parametersLoop kind name [])
            | _ =>
                (p1, .error (.parserError p1.currentToken
                  ("Expect '(' after " ++ kind.display ++ " name")))
        | _ =>
            (p, .error (.parserError p.currentToken ("Expect " ++ kind.display ++ " name")))
    | .parametersLoop kind name acc =>
        let p0 :=
          if acc.length ≥ 255 then
            Parser.reportError p p.currentToken "Can't have more than 255 parameters"
          else p
        match p0.currentToken.kind with
        | .identifier _ =>
            let tok := p0.currentToken
            let p1 := Parser.advance p0
            match p1.currentToken.kind with
            | .comma => Parser.runParser n (Parser.advance p1) (.parametersLoop kind name (acc ++ [tok]))
            | _ => Parser.runParser n p1 (.functionBody kind name (acc ++ [tok]))
        | _ => (p0, .error (.parserError p0.currentToken "Expect parameter name"))
    | .functionBody kind name params =>
        match p.currentToken.kind with
        | .rightParen =>
            let p1 := Parser.advance p
            match p1.currentToken.kind with
            | .leftBrace =>
                match Parser.runParser n (Parser.advance p1) .blockJ with
                | (p2, .ok (.stmts body)) =>
                    (p2, .ok (.stmt (.function (.mk name params body))))
                | (p2, .ok _) => (p2, .error .outOfFuel)
                | (p2, .error e) => (p2, .error e)
            | _ =>
                (p1, .error (.parserError p1.currentToken
                  ("Expect '\x7b' before " ++ kind.display ++ " body")))
        | _ => (p, .error (.parserError p.currentToken "Expect ')' after parameters"))
    | .classDeclaration =>
        match p.currentToken.kind with
        | .identifier _ =>
            let name := p.currentToken
            let p1 := Parser.advance p
            match p1.currentToken.kind with
            | .less =>
                let p2 := Parser.advance p1
                match p2.currentToken.kind with
                | .identifier _ =>
                    let superclassName := p2.currentToken
                    let p3 := Parser.advance p2
                    match p3.currentToken.kind with
                    | .leftBrace =>
                        Parser.runParser n (Parser.advance p3)
                          (.classMethodsLoop name (some (.variableE superclassName)) [])
                    | _ =>
                        (p3, .error (.parserError p3.currentToken
                          "Expect '\x7b' before class body."))
                | _ => (p2, .error (.parserError p2.currentToken "Expect superclass name"))
            | .leftBrace =>
                Parser.runParser n (Parser.advance p1) (.classMethodsLoop name none [])
            | _ =>
                (p1, .error (.parserError p1.currentToken "Expect '\x7b' before class body."))
        | _ => (p, .error (.parserError p.currentToken "Expect class name"))
    | .classMethodsLoop name superclass acc =>
        match p.currentToken.kind with
        | .rightBrace =>
            (Parser.advance p, .ok (.stmt (.classStmt name superclass acc)))
        | .eof => (p, .error (.parserError p.currentToken "Expect '\x7d' after class body"))
        | _ =>
            match Parser.runParser n p (.functionJ .function) with
            | (p1, .ok (.stmt (.function f))) =>
                Parser.runParser n p1 (.classMethodsLoop name superclass (acc ++ [f]))
            | (p1, .ok (.stmt _)) => Parser.runParser n p1 (.classMethodsLoop name superclass acc)
            | (p1, .ok _) => (p1, .error .outOfFuel)
            | (p1, .error e) => (p1, .error e)
    | .statement =>
        match p.currentToken.kind with
        | .kwPrint => Parser.runParser n (Parser.advance p) .printStatement
        | .leftBrace =>
            match Parser.runParser n (Parser.advance p) .blockJ with
            | (p1, .ok (.stmts l)) => (p1, .ok (.stmt (.block l)))
            | (p1, .ok _) => (p1, .error .outOfFuel)
            | (p1, .error e) => (p1, .error e)
        | .kwIf => Parser.runParser n (Parser.advance p) .ifStatement
        | .kwWhile => Parser.runParser n (Parser.advance p) .whileStatement
        | .kwFor => Parser.runParser n (Parser.advance p) .forStatement
        | .kwReturn => Parser.runParser n p .returnStatement
        | _ => Parser.runParser n p .expressionStatement
    | .printStatement =>
        match Parser.runParser n p .expression with
        | (p1, .ok (.expr value)) =>
            match p1.currentToken.kind with
            | .semicolon => (Parser.advance p1, .ok (.stmt (.print value)))
            | _ => (p1, .error (.parserError p1.currentToken "Expect ';' after value"))
        | (p1, .ok _) => (p1, .error .outOfFuel)
        | (p1, .error e) => (p1, .error e)
    | .blockJ => Parser.runParser n p (.blockLoop [])
    | .blockLoop acc =>
        match p.currentToken.kind with
        | .rightBrace => (Parser.advance p, .ok (.stmts acc))
        | .eof => (p, .error (.parserError p.currentToken "Expect '\x7d' after block"))
        | _ =>
            match Parser.runParser n p .declaration with
            | (p1, .ok (.stmt st)) => Parser.runParser n p1 (.blockLoop (acc ++ [st]))
            | (p1, .ok _) => (p1, .error .outOfFuel)
            | (p1, .error e) => (p1, .error e)
    | .ifStatement =>
        match p.currentToken.kind with
        | .leftParen =>
            match Parser.runParser n (Parser.advance p) .expression with
            | (p1, .ok (.expr condition)) =>
                match p1.currentToken.kind with
                | .rightParen =>
                    match Parser.runParser n (Parser.advance p1) .statement with
                    | (p2, .ok (.stmt thenBranch)) =>
                        match p2.currentToken.kind with
                        | .kwElse =>
                            match Parser.runParser n (Parser.advance p2) .statement with
                            | (p3, .ok (.stmt elseBranch)) =>
                                (p3, .ok (.stmt (.ifStmt condition thenBranch (some elseBranch))))
                            | (p3, .ok _) => (p3, .error .outOfFuel)
                            | (p3, .error e) => (p3, .error e)
                        | _ => (p2, .ok (.stmt (.ifStmt condition thenBranch none)))
                    | (p2, .ok _) => (p2, .error .outOfFuel)
                    | (p2, .error e) => (p2, .error e)
                | _ =>
                    (p1, .error (.parserError p1.currentToken "Expect ')' after if condition"))
            | (p1, .ok _) => (p1, .error .outOfFuel)
            | (p1, .error e) => (p1, .error e)
        | _ => (p, .error (.parserError p.currentToken "Expect '(' after if"))
    | .whileStatement =>
        match p.currentToken.kind with
        | .leftParen =>
            match Parser.runParser n (Parser.advance p) .expression with
            | (p1, .ok (.expr condition)) =>
                match p1.currentToken.kind with
                | .rightParen =>
                    match Parser.runParser n (Parser.advance p1) .statement with
                    | (p2, .ok (.stmt body)) =>
                        (p2, .ok (.stmt (.whileStmt condition body)))
                    | (p2, .ok _) => (p2, .error .outOfFuel)
                    | (p2, .error e) => (p2, .error e)
                | _ => (p1, .error (.parserError p1.currentToken "Expect ')' after condition"))
            | (p1, .ok _) => (p1, .error .outOfFuel)
            | (p1, .error e) => (p1, .error e)
        | _ => (p, .error (.parserError p.currentToken "Expect '(' after while"))
    | .returnStatement =>
        let keyword := p.currentToken
        let p1 := Parser.advance p
        match p1.currentToken.kind with
        | .semicolon => (Parser.advance p1, .ok (.stmt (.returnStmt keyword none)))
        | _ =>
            match Parser.runParser n p1 .expression with
            | (p2, .ok (.expr value)) =>
                match p2.currentToken.kind with
                | .semicolon =>
                    (Parser.advance p2, .ok (.stmt (.returnStmt keyword (some value))))
                | _ =>
                    (p2, .error (.parserError p2.currentToken "Expect ';' after return value"))
            | (p2, .ok _) => (p2, .error .outOfFuel)
            | (p2, .error e) => (p2, .error e)
    | .expressionStatement =>
        match Parser.runParser n p .expression with
        | (p1, .ok (.expr e)) =>
            match p1.currentToken.kind with
            | .semicolon => (Parser.advance p1, .ok (.stmt (.expression e)))
            | _ => (p1, .error (.parserError p1.currentToken "Expect ';' after expression"))
        | (p1, .ok _) => (p1, .error .outOfFuel)
        | (p1, .error e) => (p1, .error e)
    | .forStatement =>
        match p.currentToken.kind with
        | .leftParen =>
            let p1 := Parser.advance p
            match
              (match p1.currentToken.kind with
               | .semicolon => (Parser.advance p1, .ok none)
               | .kwVar =>
                   match Parser.runParser n (Parser.advance p1) .varDeclaration with
                   | (p2, .ok (.stmt st)) => (p2, .ok (some st))
                   | (p2, .ok _) => (p2, .error PErr.outOfFuel)
                   | (p2, .error e) => (p2, .error e)
               | _ =>
                   match Parser.runParser n p1 .expressionStatement with
                   | (p2, .ok (.stmt st)) => (p2, .ok (some st))
                   | (p2, .ok _) => (p2, .error PErr.outOfFuel)
                   | (p2, .error e) => (p2, .error e) :
                PState × Except PErr (Option Stmt))
            with
            | (p2, .error e) => (p2, .error e)
            | (p2, .ok initializer) =>
                match
                  (match p2.currentToken.kind with
                   | .semicolon => (p2, .ok (Expr.literal ⟨.kwTrue, 0⟩))
                   | _ =>
                       match Parser.runParser n p2 .expression with
                       | (p3, .ok (.expr e)) => (p3, .ok e)
                       | (p3, .ok _) => (p3, .error PErr.outOfFuel)
                       | (p3, .error e) => (p3, .error e) :
                    PState × Except PErr Expr)
                with
                | (p3, .error e) => (p3, .error e)
                | (p3, .ok condition) =>
                    match p3.currentToken.kind with
                    | .semicolon =>
                        let p4 := Parser.advance p3
                        match
                          (match p4.currentToken.kind with
                           | .rightParen => (p4, .ok none)
                           | _ =>
                               match Parser.runParser n p4 .expression with
                               | (p5, .ok (.expr e)) => (p5, .ok (some e))
                               | (p5, .ok _) => (p5, .error PErr.outOfFuel)
                               | (p5, .error e) => (p5, .error e) :
                            PState × Except PErr (Option Expr))
                        with
                        | (p5, .error e) => (p5, .error e)
                        | (p5, .ok increment) =>
                            match p5.currentToken.kind with
                            | .rightParen =>
                                match Parser.runParser n (Parser.advance p5) .statement with
                                | (p6, .ok (.stmt body)) =>
                                    (p6, .ok (.stmt
                                      (Parser.assembleFor initializer condition increment body)))
                                | (p6, .ok _) => (p6, .error .outOfFuel)
                                | (p6, .error e) => (p6, .error e)
                            | _ =>
                                (p5, .error (.parserError p5.currentToken
                                  "Expect ')' after for clauses"))
                    | _ =>
                        (p3, .error (.parserError p3.currentToken
                          "Expect ';' after loop condition"))
        | _ => (p, .error (.parserError p.currentToken "Expect '(' after for"))
    | .expression => Parser.runParser n p .assignment
    | .assignment =>
        match Parser.runParser n p .orExpr with
        | (p1, .ok (.expr e)) =>
            match p1.currentToken.kind with
            | .equal =>
                let equals := p1.currentToken
                match Parser.runParser n (Parser.advance p1) .assignment with
                | (p2, .ok (.expr value)) =>
                    match e with
                    | .variableE name => (p2, .ok (.expr (.assign name value)))
                    | .get object name => (p2, .ok (.expr (.set object name value)))
                    | _ =>
                        (Parser.reportError p2 equals "Invalid assignment target",
                         .ok (.expr e))
                | (p2, .ok _) => (p2, .error .outOfFuel)
                | (p2, .error e2) => (p2, .error e2)
            | _ => (p1, .ok (.expr e))
        | (p1, .ok _) => (p1, .error .outOfFuel)
        | (p1, .error e) => (p1, .error e)
    | .orExpr =>
        match Parser.runParser n p .andExpr with
        | (p1, .ok (.expr e)) => Parser.runParser n p1 (.orLoop e)
        | (p1, .ok _) => (p1, .error .outOfFuel)
        | (p1, .error e) => (p1, .error e)
    | .orLoop e =>
        match p.currentToken.kind with
        | .kwOr =>
            let operator := p.currentToken
            match Parser.runParser n (Parser.advance p) .andExpr with
            | (p1, .ok (.expr right)) =>
                Parser.runParser n p1 (.orLoop (.logical e operator right))
            | (p1, .ok _) => (p1, .error .outOfFuel)
            | (p1, .error e2) => (p1, .error e2)
        | _ => (p, .ok (.expr e))
    | .andExpr =>
        match Parser.runParser n p .equality with
        | (p1, .ok (.expr e)) => Parser.runParser n p1 (.andLoop e)
        | (p1, .ok _) => (p1, .error .outOfFuel)
        | (p1, .error e) => (p1, .error e)
    | .andLoop e =>
        match p.currentToken.kind with
        | .kwAnd =>
            let operator := p.currentToken
            match Parser.runParser n (Parser.advance p) .equality with
            | (p1, .ok (.expr right)) =>
                Parser.runParser n p1 (.andLoop (.logical e operator right))
            | (p1, .ok _) => (p1, .error .outOfFuel)
            | (p1, .error e2) => (p1, .error e2)
        | _ => (p, .ok (.expr e))
    | .equality =>
        match Parser.runParser n p .comparison with
        | (p1, .ok (.expr e)) => Parser.runParser n p1 (.equalityLoop e)
        | (p1, .ok _) => (p1, .error .outOfFuel)
        | (p1, .error e) => (p1, .error e)
    | .equalityLoop e =>
        match p.currentToken.kind with
        | .bangEqual =>
            let operator := p.currentToken
            match Parser.runParser n (Parser.advance p) .comparison with
            | (p1, .ok (.expr right)) =>
                Parser.runParser n p1 (.equalityLoop (.binary e operator right))
            | (p1, .ok _) => (p1, .error .outOfFuel)
            | (p1, .error e2) => (p1, .error e2)
        | .equalEqual =>
            let operator := p.currentToken
            match Parser.runParser n (Parser.advance p) .comparison with
            | (p1, .ok (.expr right)) =>
                Parser.runParser n p1 (.equalityLoop (.binary e operator right))
            | (p1, .ok _) => (p1, .error .outOfFuel)
            | (p1, .error e2) => (p1, .error e2)
        | _ => (p, .ok (.expr e))
    | .comparison =>
        match Parser.runParser n p .term with
        | (p1, .ok (.expr e)) => Parser.runParser n p1 (.comparisonLoop e)
        | (p1, .ok _) => (p1, .error .outOfFuel)
        | (p1, .error e) => (p1, .error e)
    | .comparisonLoop e =>
        match p.currentToken.kind with
        | .greater =>
            let operator := p.currentToken
            match Parser.runParser n (Parser.advance p) .term with
            | (p1, .ok (.expr right)) =>
                Parser.runParser n p1 (.comparisonLoop (.binary e operator right))
            | (p1, .ok _) => (p1, .error .outOfFuel)
            | (p1, .error e2) => (p1, .error e2)
        | .greaterEqual =>
            let operator := p.currentToken
            match Parser.runParser n (Parser.advance p) .term with
            | (p1, .ok (.expr right)) =>
                Parser.runParser n p1 (.comparisonLoop (.binary e operator right))
            | (p1, .ok _) => (p1, .error .outOfFuel)
            | (p1, .error e2) => (p1, .error e2)
        | .less =>
            let operator := p.currentToken
            match Parser.runParser n (Parser.advance p) .term with
            | (p1, .ok (.expr right)) =>
                Parser.runParser n p1 (.comparisonLoop (.binary e operator right))
            | (p1, .ok _) => (p1, .error .outOfFuel)
            | (p1, .error e2) => (p1, .error e2)
        | .lessEqual =>
            let operator := p.currentToken
            match Parser.runParser n (Parser.advance p) .term with
            | (p1, .ok (.expr right)) =>
                Parser.runParser n p1 (.comparisonLoop (.binary e operator right))
            | (p1, .ok _) => (p1, .error .outOfFuel)
            | (p1, .error e2) => (p1, .error e2)
        | _ => (p, .ok (.expr e))
    | .term =>
        match Parser.runParser n p .factor with
        | (p1, .ok (.expr e)) => Parser.runParser n p1 (.termLoop e)
        | (p1, .ok _) => (p1, .error .outOfFuel)
        | (p1, .error e) => (p1, .error e)
    | .termLoop e =>
        match p.currentToken.kind with
        | .minus =>
            let operator := p.currentToken
            match Parser.runParser n (Parser.advance p) .factor with
            | (p1, .ok (.expr right)) =>
                Parser.runParser n p1 (.termLoop (.binary e operator right))
            | (p1, .ok _) => (p1, .error .outOfFuel)
            | (p1, .error e2) => (p1, .error e2)
        | .plus =>
            let operator := p.currentToken
            match Parser.runParser n (Parser.advance p) .factor with
            | (p1, .ok (.expr right)) =>
                Parser.runParser n p1 (.termLoop (.binary e operator right))
            | (p1, .ok _) => (p1, .error .outOfFuel)
            | (p1, .error e2) => (p1, .error e2)
        | _ => (p, .ok (.expr e))
    | .factor =>
        match Parser.runParser n p .unaryJ with
        | (p1, .ok (.expr e)) => Parser.runParser n p1 (.factorLoop e)
        | (p1, .ok _) => (p1, .error .outOfFuel)
        | (p1, .error e) => (p1, .error e)
    | .factorLoop e =>
        match p.currentToken.kind with
        | .slash =>
            let operator := p.currentToken
            match Parser.runParser n (Parser.advance p) .unaryJ with
            | (p1, .ok (.expr right)) =>
                Parser.runParser n p1 (.factorLoop (.binary e operator right))
            | (p1, .ok _) => (p1, .error .outOfFuel)
            | (p1, .error e2) => (p1, .error e2)
        | .star =>
            let operator := p.currentToken
            match Parser.runParser n (Parser.advance p) .unaryJ with
            | (p1, .ok (.expr right)) =>
                Parser.runParser n p1 (.factorLoop (.binary e operator right))
            | (p1, .ok _) => (p1, .error .outOfFuel)
            | (p1, .error e2) => (p1, .error e2)
        | _ => (p, .ok (.expr e))
    | .unaryJ =>
        match p.currentToken.kind with
        | .bang =>
            let operator := p.currentToken
            match Parser.runParser n (Parser.advance p) .unaryJ with
            | (p1, .ok (.expr right)) => (p1, .ok (.expr (.unary operator right)))
            | (p1, .ok _) => (p1, .error .outOfFuel)
            | (p1, .error e) => (p1, .error e)
        | .minus =>
            let operator := p.currentToken
            match Parser.runParser n (Parser.advance p) .unaryJ with
            | (p1, .ok (.expr right)) => (p1, .ok (.expr (.unary operator right)))
            | (p1, .ok _) => (p1, .error .outOfFuel)
            | (p1, .error e) => (p1, .error e)
        | _ => Parser.runParser n p .callExpr
    | .callExpr =>
        match Parser.runParser n p .primary with
        | (p1, .ok (.expr e)) => Parser.runParser n p1 (.callLoop e)
        | (p1, .ok _) => (p1, .error .outOfFuel)
        | (p1, .error e) => (p1, .error e)
    | .callLoop e =>
        match p.currentToken.kind with
        | .leftParen =>
            match Parser.runParser n (Parser.advance p) (.finishCall e) with
            | (p1, .ok (.expr e2)) => Parser.runParser n p1 (.callLoop e2)
            | (p1, .ok _) => (p1, .error .outOfFuel)
            | (p1, .error e2) => (p1, .error e2)
        | .dot =>
            let p1 := Parser.advance p
            match p1.currentToken.kind with
            | .identifier _ =>
                let e2 := Expr.get e p1.currentToken
                Parser.runParser n (Parser.advance p1) (.callLoop e2)
            | _ =>
                (p1, .error (.parserError p1.currentToken "Expect property name after '.'"))
        | _ => (p, .ok (.expr e))
    | .finishCall callee =>
        match p.currentToken.kind with
        | .rightParen =>
            let paren := p.currentToken
            (Parser.advance p, .ok (.expr (.call callee paren [])))
        | _ =>
            match Parser.runParser n p .expression with
            | (p1, .ok (.expr first)) =>
                Parser.runParser n p1 (.argumentsLoop callee [first])
            | (p1, .ok _) => (p1, .error .outOfFuel)
            | (p1, .error e) => (p1, .error e)
    | .argumentsLoop callee acc =>
        match p.currentToken.kind with
        | .comma =>
            let p1 := Parser.advance p
            let p2 :=
              if acc.length ≥ 255 then
                Parser.reportError p1 p1.currentToken "Can't have more than 255 arguments"
              else p1
            match Parser.runParser n p2 .expression with
            | (p3, .ok (.expr e)) => Parser.runParser n p3 (.argumentsLoop callee (acc ++ [e]))
            | (p3, .ok _) => (p3, .error .outOfFuel)
            | (p3, .error e2) => (p3, .error e2)
        | .rightParen =>
            let paren := p.currentToken
            (Parser.advance p, .ok (.expr (.call callee paren acc)))
        | _ => (p, .error (.parserError p.currentToken "Expect ')' after arguments"))
    | .primary =>
        match p.currentToken.kind with
        | .kwTrue => (Parser.advance p, .ok (.expr (.literal p.currentToken)))
        | .kwFalse => (Parser.advance p, .ok (.expr (.literal p.currentToken)))
        | .kwNil => (Parser.advance p, .ok (.expr (.literal p.currentToken)))
        | .number _ => (Parser.advance p, .ok (.expr (.literal p.currentToken)))
        | .string _ => (Parser.advance p, .ok (.expr (.literal p.currentToken)))
        | .leftParen =>
            match Parser.runParser n (Parser.advance p) .expression with
            | (p1, .ok (.expr e)) =>
                match p1.currentToken.kind with
                | .rightParen => (Parser.advance p1, .ok (.expr (.grouping e)))
                | _ =>
                    (p1, .error (.parserError p1.currentToken "Expect ')' after expression"))
            | (p1, .ok _) => (p1, .error .outOfFuel)
            | (p1, .error e) => (p1, .error e)
        | .identifier _ => (Parser.advance p, .ok (.expr (.variableE p.currentToken)))
        | .kwThis => (Parser.advance p, .ok (.expr (.thisE p.currentToken)))
        | .kwSuper =>
            let keyword := p.currentToken
            let p1 := Parser.advance p
            match p1.currentToken.kind with
            | .dot =>
                let p2 := Parser.advance p1
                match p2.currentToken.kind with
                | .identifier _ =>
                    let method := p2.currentToken
                    (Parser.advance p2, .ok (.expr (.superE keyword method)))
                | _ =>
                    (p2, .error (.parserError p2.currentToken "Expect superclass method name."))
            | _ => (p1, .error (.parserError p1.currentToken "Expect '.' after 'super'."))
        | _ => (p, .error (.parserError p.currentToken "Expect expression"))

/-- `Parser::parse`: prime the lookahead, then collect declarations until
`Eof`, reporting (and skipping past) failed declarations. -/
def Parser.parse (fuel : Nat) (tokens : List Token) :
    PState × Except PErr (List Stmt) :=
  let p0 : PState := ⟨⟨.eof, 0⟩, tokens, []⟩
  let p1 := Parser.advance p0
  match Parser.runParser fuel p1 (.parseLoop []) with
  | (p, .ok (.stmts l)) => (p, .ok l)
  | (p, .ok _) => (p, .error .outOfFuel)
  | (p, .error e) => (p, .error e)

/-! ### lox.rs and main.rs -/

/-- What one `Lox::run(source)` call produces, with the diagnostics printed
through `Lox::error` along the way kept per phase.  `run` does not gate
interpretation on resolver diagnostics: whenever parsing yields statements,
`interpret` runs. -/
structure RunOutcome where
  scanError : Option ScanErr
  parseDiags : List (Token × String)
  resolverDiags : List (Token × String)
  resolverPanicked : Bool
  locals : List (Expr × Nat)
  result : Option (Except RErr Unit)
  output : List String
  deriving Repr

/-- `Lox::run`: scan, parse (collecting reported parse errors), resolve
(collecting reported resolver errors, unconditionally proceeding), then
interpret on a fresh default interpreter carrying the resolver's locals. -/
def Lox.run (fuel : Nat) (source : String) : RunOutcome :=
  match Scanner.scan fuel source with
  | .error e => ⟨some e, [], [], false, [], none, []⟩
  | .ok tokens =>
      match Parser.parse fuel tokens with
      | (p, .error _) => ⟨none, p.diags, [], false, [], none, []⟩
      | (p, .ok statements) =>
          let r := Resolver.resolve fuel Resolver.initialState statements
          let s0 := { Interpreter.defaultState with locals := r.locals }
          match Interpreter.interpret fuel s0 statements with
          | (s1, res) => ⟨none, p.diags, r.diags, r.panicked, r.locals, some res, s1.output⟩

/-- What the active `main` of `main.rs` does with its command line: fewer
than two elements in `argv` (i.e. no command-line argument) returns at once
with exit code 0; otherwise it scans and parses the literal text of
`argv[1]` and pretty-prints the resulting syntax tree.  It never reads a
file, never starts a prompt loop, and never prints a usage line; `lox.rs`
(whose `run_file`/`run_prompt` would do so) is not even declared as a module
of the crate. -/
inductive MainAction where
  | exitSilently
  | parseAndPrint (sourceArg : String)
  deriving Repr, DecidableEq

def rloxMain (args : List String) : MainAction :=
  if args.length < 2 then .exitSilently
  else
    match args with
    | _ :: a1 :: _ => .parseAndPrint a1
    | _ => .exitSilently

/-- The CLI contract as the spec states it (§6): no argument starts the
REPL, one argument runs that file, two or more print `Usage: rlox [script]`
and exit with a failure code.  (The head of `args` is the program name.) -/
inductive CliSpecAction where
  | repl
  | runFile (path : String)
  | usageExit
  deriving Repr, DecidableEq

def cliSpecAction (args : List String) : CliSpecAction :=
  match args with
  | [] => .repl
  | [_] => .repl
  | [_, path] => .runFile path
  | _ => .usageExit

/-! ### Auxiliary definitions used by the theorems -/

/-- The for-loop desugaring exactly as the spec words it: `for (init; cond;
incr) body` becomes `{ init; while (cond) { body; incr; } }`, where a missing
`init` omits the outer block and a missing `incr` omits the inner block.
Stated independently of the parser's incremental construction, to be
compared against `Parser.assembleFor`. -/
def forDesugarSpec (init : Option Stmt) (cond : Expr) (incr : Option Expr)
    (body : Stmt) : Stmt :=
  match init, incr with
  | some i, some inc => .block [i, .whileStmt cond (.block [body, .expression inc])]
  | some i, none => .block [i, .whileStmt cond body]
  | none, some inc => .whileStmt cond (.block [body, .expression inc])
  | none, none => .whileStmt cond body

/-- Projection used to separate two parse trees: the line of a `while`
statement's literal condition token. -/
def Stmt.whileCondLine : Stmt → Nat
  | .whileStmt (.literal t) _ => t.line
  | _ => 0

/-- Does any environment on the enclosing chain from `r` (walked with the
given fuel) bind `id`? -/
def Environment.boundOnChain (heap : List EnvironmentData) : Nat → Nat → String → Bool
  | 0, _, _ => false
  | fuel+1, r, id =>
      match heap.get? r with
      | some env =>
          containsStr env.values id ||
            (match env.enclosing with
             | some e => Environment.boundOnChain heap fuel e id
             | none => false)
      | none => false

/-- Well-formed environment heaps: every enclosing link points to a strictly
earlier allocation.  Every heap the interpreter builds satisfies this, since
each fresh environment encloses an already-allocated one. -/
def Environment.wf (heap : List EnvironmentData) : Prop :=
  ∀ i env, heap.get? i = some env → ∀ e, env.enclosing = some e → e < i

/-- Follow exactly `d` enclosing links. -/
def Environment.ancestor (heap : List EnvironmentData) : Nat → Nat → Option Nat
  | 0, r => some r
  | d+1, r =>
      match heap.get? r with
      | some env =>
          match env.enclosing with
          | some e => Environment.ancestor heap d e
          | none => none
      | none => none

/-- Operand shape accepted by `+`: two numbers or two strings. -/
def Interpreter.plusShape : LoxValue → LoxValue → Bool
  | .number _, .number _ => true
  | .string _, .string _ => true
  | _, _ => false

/-- Frame relation between environment heaps: the heap only grows, and the
enclosing link of every already-allocated environment is unchanged.  Every
evaluator step preserves it between its input and output states. -/
def HeapShapeLE (h1 h2 : List EnvironmentData) : Prop :=
  h1.length ≤ h2.length ∧
    ∀ i, i < h1.length →
      (h2.get? i).map (fun e => e.enclosing) =
        (h1.get? i).map (fun e => e.enclosing)

/-! ### Frame lemmas: every evaluator step only appends environments and
never changes an existing environment's enclosing link -/

theorem heapShapeLE_refl (h : List EnvironmentData) : HeapShapeLE h h :=
  ⟨Nat.le_refl _, fun _ _ => rfl⟩

theorem heapShapeLE_trans {a b c : List EnvironmentData}
    (hab : HeapShapeLE a b) (hbc : HeapShapeLE b c) : HeapShapeLE a c := by
  refine ⟨Nat.le_trans hab.1 hbc.1, fun i hi => ?_⟩
  rw [hbc.2 i (Nat.lt_of_lt_of_le hi hab.1), hab.2 i hi]

theorem heapShapeLE_append (h : List EnvironmentData) (l : List EnvironmentData) :
    HeapShapeLE h (h ++ l) := by
  refine ⟨by simp, fun i hi => ?_⟩
  rw [List.get?_append hi]

theorem heapShapeLE_set {h : List EnvironmentData} {r : Nat} {env env' : EnvironmentData}
    (hr : h.get? r = some env) (henc : env'.enclosing = env.enclosing) :
    HeapShapeLE h (h.set r env') := by
  refine ⟨by simp, fun i hi => ?_⟩
  by_cases hir : r = i
  · subst hir
    have hlt : r < h.length := (List.get?_eq_some.mp hr).1
    rw [List.get?_set_eq_of_lt _ hlt, hr]
    simp [henc]
  · rw [List.get?_set_ne _ _ hir]

theorem define_heapShape (h : List EnvironmentData) (r : Nat) (id : String) (v : LoxValue) :
    HeapShapeLE h (Environment.define h r id v) := by
  unfold Environment.define
  cases hr : h.get? r with
  | none => exact heapShapeLE_refl h
  | some env => exact heapShapeLE_set hr rfl

theorem assignLoop_heapShape (h : List EnvironmentData) :
    ∀ fuel r name v, HeapShapeLE h ((Environment.assignLoop h fuel r name v).1) := by
  intro fuel
  induction fuel with
  | zero => intro r name v; exact heapShapeLE_refl h
  | succ n ih =>
      intro r name v
      unfold Environment.assignLoop
      cases name.kind with
      | identifier id =>
          simp only
          cases hr : h.get? r with
          | none => exact heapShapeLE_refl h
          | some env =>
              simp only
              by_cases hc : containsStr env.values id = true
              · simp [hc]
                exact heapShapeLE_set hr rfl
              · simp [hc]
                cases env.enclosing with
                | some e => exact ih e name v
                | none => exact heapShapeLE_refl h
      | _ => exact heapShapeLE_refl h

theorem assignAt_heapShape (h : List EnvironmentData) :
    ∀ d r name v, HeapShapeLE h ((Environment.assignAt h d r name v).1) := by
  intro d
  induction d with
  | zero =>
      intro r name v
      unfold Environment.assignAt
      cases name.kind with
      | identifier id =>
          simp only
          cases hr : h.get? r with
          | none => exact heapShapeLE_refl h
          | some env => exact heapShapeLE_set hr rfl
      | _ => exact heapShapeLE_refl h
  | succ n ih =>
      intro r name v
      unfold Environment.assignAt
      cases hr : h.get? r with
      | none => exact heapShapeLE_refl h
      | some env =>
          simp only
          cases env.enclosing with
          | some e => exact ih e name v
          | none =>
              cases name.kind <;> exact heapShapeLE_refl h

theorem bind_heapShape (s : InterpreterState) (f : FunctionV) (inst : Nat) :
    HeapShapeLE s.envHeap ((Function.bind s f inst).1).envHeap := by
  unfold Function.bind
  exact heapShapeLE_append _ _

theorem instanceGet_heapShape (s : InterpreterState) (ref : Nat) (name : Token) :
    HeapShapeLE s.envHeap ((Instance.get s ref name).1).envHeap := by
  unfold Instance.get
  cases s.instHeap.get? ref with
  | none => exact heapShapeLE_refl _
  | some data =>
      simp only
      cases name.kind with
      | identifier id =>
          simp only
          cases lookupStr data.fields id with
          | some v => exact heapShapeLE_refl _
          | none =>
              simp only
              cases Class.findMethod data.klass id with
              | some m => exact bind_heapShape s m ref
              | none => exact heapShapeLE_refl _
      | _ => exact heapShapeLE_refl _

theorem instanceSet_envHeap (s : InterpreterState) (ref : Nat) (name : Token) (v : LoxValue) :
    (Instance.set s ref name v).envHeap = s.envHeap := by
  unfold Instance.set
  cases name.kind <;> simp only
  case identifier id =>
    cases s.instHeap.get? ref <;> simp

theorem finishVar_heapShape (s : InterpreterState) (name : Token) (v : LoxValue) :
    HeapShapeLE s.envHeap ((Interpreter.finishVarStmt s name v).1).envHeap := by
  unfold Interpreter.finishVarStmt
  cases name.kind with
  | identifier id => exact define_heapShape _ _ _ _
  | _ => exact heapShapeLE_refl _

theorem assign_heapShape (h : List EnvironmentData) (r : Nat) (name : Token) (v : LoxValue) :
    HeapShapeLE h ((Environment.assign h r name v).1) :=
  assignLoop_heapShape h _ r name v

theorem heapShape_assign_result {h0 h1 h2 : List EnvironmentData}
    (hle : HeapShapeLE h0 h1) {r : Nat} {name : Token} {v : LoxValue} {res : Except RErr LoxValue}
    (heq : Environment.assign h1 r name v = (h2, res)) : HeapShapeLE h0 h2 := by
  have h3 := assign_heapShape h1 r name v
  rw [heq] at h3
  exact heapShapeLE_trans hle h3

theorem finishClass_heapShape (s : InterpreterState) (name : Token)
    (superclass : Option ClassV) (methods : List FunctionDecl) :
    HeapShapeLE s.envHeap ((Interpreter.finishClassStmt s name superclass methods).1).envHeap := by
  unfold Interpreter.finishClassStmt
  cases name.kind with
  | identifier id =>
      simp only
      have h1 : HeapShapeLE s.envHeap (Environment.define s.envHeap s.environment id .nil) :=
        define_heapShape _ _ _ _
      cases superclass with
      | some c =>
          simp only
          split
          · next heq =>
              exact heapShape_assign_result
                (heapShapeLE_trans h1 (heapShapeLE_append _ _)) heq
          · next heq =>
              exact heapShape_assign_result
                (heapShapeLE_trans h1 (heapShapeLE_append _ _)) heq
      | none =>
          simp only
          split
          · next heq => exact heapShape_assign_result h1 heq
          · next heq => exact heapShape_assign_result h1 heq
  | _ => exact heapShapeLE_refl _

theorem heapShape_step {n : Nat} {s s1 : InterpreterState} {j : Job} {res : Except RErr JOut}
    (ih : ∀ s j, HeapShapeLE s.envHeap ((Interpreter.runJob n s j).1).envHeap)
    (heq : Interpreter.runJob n s j = (s1, res)) : HeapShapeLE s.envHeap s1.envHeap := by
  have h := ih s j
  rw [heq] at h
  exact h

/-- Every evaluator step only appends to the environment heap and never
changes the enclosing link of an existing environment. -/
theorem runJob_heapShape :
    ∀ n s j, HeapShapeLE s.envHeap ((Interpreter.runJob n s j).1).envHeap := by
  intro n
  induction n with
  | zero => intro s j; exact heapShapeLE_refl _
  | succ n ih =>
      intro s j
      rcases j with e | st | stmts | es | ⟨f, args⟩ | ⟨c, args⟩
      · -- .eval e
        rcases e with ⟨operator, right⟩ | ⟨left, operator, right⟩ | value | e | name
          | ⟨name, valueExpr⟩ | ⟨left, operator, right⟩ | ⟨callee, paren, argExprs⟩
          | ⟨object, name⟩ | ⟨object, name, valueExpr⟩ | keyword | ⟨keyword, method⟩
        · -- unary
          simp only [Interpreter.runJob]
          rcases hq1 : Interpreter.runJob n s (.eval right) with ⟨s1, r1⟩
          have H1 := heapShape_step ih hq1
          rcases r1 with e1 | o1
          · exact H1
          · rcases o1 with v | vs | u
            · dsimp only
              cases operator.kind <;> dsimp only
              case minus => cases v <;> exact H1
              all_goals exact H1
            · exact H1
            · exact H1
        · -- binary
          simp only [Interpreter.runJob]
          rcases hq1 : Interpreter.runJob n s (.eval left) with ⟨s1, r1⟩
          have H1 := heapShape_step ih hq1
          rcases r1 with e1 | o1
          · exact H1
          · rcases o1 with v | vs | u
            · dsimp only
              rcases hq2 : Interpreter.runJob n s1 (.eval right) with ⟨s2, r2⟩
              have H2 := heapShapeLE_trans H1 (heapShape_step ih hq2)
              rcases r2 with e2 | o2
              · exact H2
              · rcases o2 with v2 | vs2 | u2 <;> exact H2
            · exact H1
            · exact H1
        · -- literal
          simp only [Interpreter.runJob]
          cases value.kind <;> exact heapShapeLE_refl _
        · -- grouping
          simp only [Interpreter.runJob]
          exact ih s (.eval e)
        · -- variableE
          simp only [Interpreter.runJob]
          exact heapShapeLE_refl _
        · -- assign
          simp only [Interpreter.runJob]
          rcases hq1 : Interpreter.runJob n s (.eval valueExpr) with ⟨s1, r1⟩
          have H1 := heapShape_step ih hq1
          rcases r1 with e1 | o1
          · exact H1
          · rcases o1 with v | vs | u
            · dsimp only
              cases localsGet s1.locals (.assign name valueExpr) with
              | some d =>
                  dsimp only
                  rcases hq2 : Environment.assignAt s1.envHeap d s1.environment name v
                    with ⟨h2, r2⟩
                  have H2 := assignAt_heapShape s1.envHeap d s1.environment name v
                  rw [hq2] at H2
                  exact heapShapeLE_trans H1 H2
              | none =>
                  dsimp only
                  rcases hq2 : Environment.assign s1.envHeap s1.globals name v with ⟨h2, r2⟩
                  have H2 := assign_heapShape s1.envHeap s1.globals name v
                  rw [hq2] at H2
                  exact heapShapeLE_trans H1 H2
            · exact H1
            · exact H1
        · -- logical
          simp only [Interpreter.runJob]
          rcases hq1 : Interpreter.runJob n s (.eval left) with ⟨s1, r1⟩
          have H1 := heapShape_step ih hq1
          rcases r1 with e1 | o1
          · exact H1
          · rcases o1 with v | vs | u
            · dsimp only
              cases operator.kind <;> dsimp only
              case kwOr =>
                split
                · exact H1
                · exact heapShapeLE_trans H1 (ih s1 (.eval right))
              case kwAnd =>
                split
                · exact H1
                · exact heapShapeLE_trans H1 (ih s1 (.eval right))
              all_goals exact H1
            · exact H1
            · exact H1
        · -- call
          simp only [Interpreter.runJob]
          rcases hq1 : Interpreter.runJob n s (.eval callee) with ⟨s1, r1⟩
          have H1 := heapShape_step ih hq1
          rcases r1 with e1 | o1
          · exact H1
          · rcases o1 with cv | vs | u
            · dsimp only
              rcases hq2 : Interpreter.runJob n s1 (.evalArgs argExprs) with ⟨s2, r2⟩
              have H2 := heapShapeLE_trans H1 (heapShape_step ih hq2)
              rcases r2 with e2 | o2
              · exact H2
              · rcases o2 with v2 | args2 | u2
                · exact H2
                · dsimp only
                  cases cv <;> dsimp only
                  case nativeFunction nf =>
                    split
                    · exact H2
                    · simp only [NativeFunction.call]
                      exact H2
                  case function f2 =>
                    split
                    · exact H2
                    · exact heapShapeLE_trans H2 (ih s2 (.callFunction f2 args2))
                  case classV cl =>
                    split
                    · exact H2
                    · exact heapShapeLE_trans H2 (ih s2 (.callClass cl args2))
                  all_goals exact H2
                · exact H2
            · exact H1
            · exact H1
        · -- get
          simp only [Interpreter.runJob]
          rcases hq1 : Interpreter.runJob n s (.eval object) with ⟨s1, r1⟩
          have H1 := heapShape_step ih hq1
          rcases r1 with e1 | o1
          · exact H1
          · rcases o1 with obj | vs | u
            · dsimp only
              cases obj <;> dsimp only
              case instanceV i =>
                rcases hq2 : Instance.get s1 i name with ⟨s2, r2⟩
                have H2 := instanceGet_heapShape s1 i name
                rw [hq2] at H2
                exact heapShapeLE_trans H1 H2
              all_goals exact H1
            · exact H1
            · exact H1
        · -- set
          simp only [Interpreter.runJob]
          rcases hq1 : Interpreter.runJob n s (.eval object) with ⟨s1, r1⟩
          have H1 := heapShape_step ih hq1
          rcases r1 with e1 | o1
          · exact H1
          · rcases o1 with obj | vs | u
            · dsimp only
              cases obj <;> dsimp only
              case instanceV i =>
                rcases hq2 : Interpreter.runJob n s1 (.eval valueExpr) with ⟨s2, r2⟩
                have H2 := heapShapeLE_trans H1 (heapShape_step ih hq2)
                rcases r2 with e2 | o2
                · exact H2
                · rcases o2 with v2 | vs2 | u2
                  · dsimp only
                    rw [show (Instance.set s2 i name v2).envHeap = s2.envHeap from
                          instanceSet_envHeap s2 i name v2]
                    exact H2
                  · exact H2
                  · exact H2
              all_goals exact H1
            · exact H1
            · exact H1
        · -- thisE
          simp only [Interpreter.runJob]
          exact heapShapeLE_refl _
        · -- superE
          simp only [Interpreter.runJob]
          cases localsGet s.locals (.superE keyword method) with
          | none => exact heapShapeLE_refl _
          | some distance =>
              dsimp only
              cases Environment.getAt s.envHeap distance s.environment
                  ⟨.identifier "super", keyword.line⟩ with
              | error e => exact heapShapeLE_refl _
              | ok superclassVal =>
                  dsimp only
                  cases distance with
                  | zero => exact heapShapeLE_refl _
                  | succ dd =>
                      dsimp only
                      cases Environment.getAt s.envHeap dd s.environment
                          ⟨.identifier "this", keyword.line⟩ with
                      | error e => exact heapShapeLE_refl _
                      | ok objectVal =>
                          dsimp only
                          cases method.kind <;> dsimp only
                          case identifier methodName =>
                            cases superclassVal <;> dsimp only
                            case classV sc =>
                              cases Class.findMethod sc methodName with
                              | some m =>
                                  dsimp only
                                  cases objectVal <;> dsimp only
                                  case instanceV obj =>
                                    rcases hqb : Function.bind s m obj with ⟨s2, fv⟩
                                    have Hb := bind_heapShape s m obj
                                    rw [hqb] at Hb
                                    exact Hb
                                  all_goals exact heapShapeLE_refl _
                              | none => exact heapShapeLE_refl _
                            all_goals exact heapShapeLE_refl _
                          all_goals exact heapShapeLE_refl _
      · -- .exec st
        rcases st with statements | e | e | ⟨name, initializer⟩
          | ⟨condition, thenBranch, elseBranch⟩ | ⟨condition, body⟩ | fd
          | ⟨keyword, value⟩ | ⟨name, superclassExpr, methods⟩
        · -- block
          simp only [Interpreter.runJob]
          rcases hq1 : Interpreter.runJob n
              { s with envHeap := s.envHeap ++ [(⟨[], some s.environment⟩ : EnvironmentData)],
                       environment := s.envHeap.length }
              (.execSeq statements) with ⟨s2, r2⟩
          have H1 := heapShapeLE_trans (heapShapeLE_append s.envHeap _) (heapShape_step ih hq1)
          rcases r2 with e2 | o2
          · exact H1
          · exact H1
        · -- expression
          simp only [Interpreter.runJob]
          rcases hq1 : Interpreter.runJob n s (.eval e) with ⟨s1, r1⟩
          have H1 := heapShape_step ih hq1
          rcases r1 with e1 | o1 <;> exact H1
        · -- print
          simp only [Interpreter.runJob]
          rcases hq1 : Interpreter.runJob n s (.eval e) with ⟨s1, r1⟩
          have H1 := heapShape_step ih hq1
          rcases r1 with e1 | o1
          · exact H1
          · rcases o1 with v | vs | u <;> exact H1
        · -- var
          simp only [Interpreter.runJob]
          cases initializer with
          | some e =>
              dsimp only
              rcases hq1 : Interpreter.runJob n s (.eval e) with ⟨s1, r1⟩
              have H1 := heapShape_step ih hq1
              rcases r1 with e1 | o1
              · exact H1
              · rcases o1 with v | vs | u
                · dsimp only
                  rcases hq2 : Interpreter.finishVarStmt s1 name v with ⟨s2, r2⟩
                  have H2 := finishVar_heapShape s1 name v
                  rw [hq2] at H2
                  exact heapShapeLE_trans H1 H2
                · exact H1
                · exact H1
          | none =>
              dsimp only
              rcases hq1 : Interpreter.finishVarStmt s name .nil with ⟨s1, r1⟩
              have H1 := finishVar_heapShape s name .nil
              rw [hq1] at H1
              exact H1
        · -- ifStmt
          simp only [Interpreter.runJob]
          rcases hq1 : Interpreter.runJob n s (.eval condition) with ⟨s1, r1⟩
          have H1 := heapShape_step ih hq1
          rcases r1 with e1 | o1
          · exact H1
          · rcases o1 with v | vs | u
            · dsimp only
              split
              · exact heapShapeLE_trans H1 (ih s1 (.exec thenBranch))
              · cases elseBranch with
                | some st2 => exact heapShapeLE_trans H1 (ih s1 (.exec st2))
                | none => exact H1
            · exact H1
            · exact H1
        · -- whileStmt
          simp only [Interpreter.runJob]
          rcases hq1 : Interpreter.runJob n s (.eval condition) with ⟨s1, r1⟩
          have H1 := heapShape_step ih hq1
          rcases r1 with e1 | o1
          · exact H1
          · rcases o1 with v | vs | u
            · dsimp only
              split
              · rcases hq2 : Interpreter.runJob n s1 (.exec body) with ⟨s2, r2⟩
                have H2 := heapShapeLE_trans H1 (heapShape_step ih hq2)
                rcases r2 with e2 | o2
                · exact H2
                · exact heapShapeLE_trans H2 (ih s2 (.exec (.whileStmt condition body)))
              · exact H1
            · exact H1
            · exact H1
        · -- function
          simp only [Interpreter.runJob]
          cases fd.name.kind <;> dsimp only
          case identifier id => exact define_heapShape _ _ _ _
          all_goals exact heapShapeLE_refl _
        · -- returnStmt
          simp only [Interpreter.runJob]
          cases value with
          | some e =>
              dsimp only
              rcases hq1 : Interpreter.runJob n s (.eval e) with ⟨s1, r1⟩
              have H1 := heapShape_step ih hq1
              rcases r1 with e1 | o1
              · exact H1
              · rcases o1 with v | vs | u <;> exact H1
          | none => exact heapShapeLE_refl _
        · -- classStmt
          simp only [Interpreter.runJob]
          cases superclassExpr with
          | some sc =>
              dsimp only
              cases sc <;> dsimp only
              case variableE scName =>
                rcases hq1 : Interpreter.runJob n s (.eval (.variableE scName)) with ⟨s1, r1⟩
                have H1 := heapShape_step ih hq1
                rcases r1 with e1 | o1
                · exact H1
                · rcases o1 with v | vs | u
                  · dsimp only
                    cases v <;> dsimp only
                    case classV c2 =>
                      rcases hq2 : Interpreter.finishClassStmt s1 name (some c2) methods
                        with ⟨s2, r2⟩
                      have H2 := finishClass_heapShape s1 name (some c2) methods
                      rw [hq2] at H2
                      exact heapShapeLE_trans H1 H2
                    all_goals exact H1
                  · exact H1
                  · exact H1
              all_goals exact heapShapeLE_refl _
          | none =>
              dsimp only
              rcases hq1 : Interpreter.finishClassStmt s name none methods with ⟨s1, r1⟩
              have H1 := finishClass_heapShape s name none methods
              rw [hq1] at H1
              exact H1
      · -- .execSeq
        cases stmts with
        | nil =>
            simp only [Interpreter.runJob]
            exact heapShapeLE_refl _
        | cons st rest =>
            simp only [Interpreter.runJob]
            rcases hq1 : Interpreter.runJob n s (.exec st) with ⟨s1, r1⟩
            have H1 := heapShape_step ih hq1
            rcases r1 with e1 | o1
            · exact H1
            · exact heapShapeLE_trans H1 (ih s1 (.execSeq rest))
      · -- .evalArgs
        cases es with
        | nil =>
            simp only [Interpreter.runJob]
            exact heapShapeLE_refl _
        | cons e rest =>
            simp only [Interpreter.runJob]
            rcases hq1 : Interpreter.runJob n s (.eval e) with ⟨s1, r1⟩
            have H1 := heapShape_step ih hq1
            rcases r1 with e1 | o1
            · exact H1
            · rcases o1 with v | vs | u
              · dsimp only
                rcases hq2 : Interpreter.runJob n s1 (.evalArgs rest) with ⟨s2, r2⟩
                have H2 := heapShapeLE_trans H1 (heapShape_step ih hq2)
                rcases r2 with e2 | o2
                · exact H2
                · rcases o2 with v2 | vs2 | u2 <;> exact H2
              · exact H1
              · exact H1
      · -- .callFunction
        simp only [Interpreter.runJob]
        cases Function.bindParameters f.declaration.params args [] with
        | error e => exact heapShapeLE_refl _
        | ok values =>
            dsimp only
            rcases hq1 : Interpreter.runJob n
                { s with envHeap := s.envHeap ++ [(⟨values, some f.closure⟩ : EnvironmentData)],
                         environment := s.envHeap.length }
                (.execSeq f.declaration.body) with ⟨s2, r2⟩
            have H1 := heapShapeLE_trans (heapShapeLE_append s.envHeap _) (heapShape_step ih hq1)
            rcases r2 with e2 | o2
            · dsimp only
              cases e2 <;> dsimp only
              case returnError v =>
                split
                · exact H1
                · exact H1
              all_goals exact H1
            · dsimp only
              split
              · exact H1
              · exact H1
      · -- .callClass
        simp only [Interpreter.runJob]
        cases Class.findMethod c "init" with
        | some initializer =>
            dsimp only
            rcases hqb : Function.bind { s with instHeap := s.instHeap ++ [(⟨c, []⟩ : InstanceData)] }
                initializer s.instHeap.length with ⟨s2, bv⟩
            have Hb := bind_heapShape
              { s with instHeap := s.instHeap ++ [(⟨c, []⟩ : InstanceData)] }
              initializer s.instHeap.length
            rw [hqb] at Hb
            rcases bv with _ | b | x | str | fn | nf | cv | iv
            · exact Hb
            · exact Hb
            · exact Hb
            · exact Hb
            · dsimp only
              rcases hq2 : Interpreter.runJob n s2 (.callFunction fn args) with ⟨s3, r3⟩
              exact heapShapeLE_trans Hb (heapShape_step ih hq2)
            · exact Hb
            · exact Hb
            · exact Hb
        | none => exact heapShapeLE_refl _

/-- C7: Environment framing.  (a) Executing a `Block` statement leaves the
current-environment pointer unchanged on every exit path (normal, error, and
return-unwinding alike, since the restore precedes error propagation);
(b) so does `Function::call`; (c) a block's body runs in a freshly allocated
environment whose enclosing link is the pre-entry environment, and that link
still holds in the post-state heap; (d) for a call (with bindable
parameters), the fresh environment's enclosing link is the function's
closure. -/
theorem c7_environment_framing :
    (∀ n s b, ((Interpreter.runJob n s (.exec (.block b))).1).environment = s.environment) ∧
    (∀ n s f args,
      ((Interpreter.runJob n s (.callFunction f args)).1).environment = s.environment) ∧
    (∀ n s b,
      (((Interpreter.runJob (n+1) s (.exec (.block b))).1).envHeap.get? s.envHeap.length).map
          (fun e => e.enclosing) = some (some s.environment)) ∧
    (∀ n s f args values, Function.bindParameters f.declaration.params args [] = .ok values →
      (((Interpreter.runJob (n+1) s (.callFunction f args)).1).envHeap.get?
          s.envHeap.length).map (fun e => e.enclosing) = some (some f.closure)) := by
  refine ⟨?_, ?_, ?_, ?_⟩
  · intro n s b
    cases n with
    | zero => rfl
    | succ n =>
        simp only [Interpreter.runJob]
        rcases Interpreter.runJob n
            { s with envHeap := s.envHeap ++ [(⟨[], some s.environment⟩ : EnvironmentData)],
                     environment := s.envHeap.length }
            (.execSeq b) with ⟨s2, r2⟩
        rcases r2 with e2 | o2 <;> rfl
  · intro n s f args
    cases n with
    | zero => rfl
    | succ n =>
        simp only [Interpreter.runJob]
        cases Function.bindParameters f.declaration.params args [] with
        | error e => rfl
        | ok values =>
            dsimp only
            rcases Interpreter.runJob n
                { s with envHeap := s.envHeap ++ [(⟨values, some f.closure⟩ : EnvironmentData)],
                         environment := s.envHeap.length }
                (.execSeq f.declaration.body) with ⟨s2, r2⟩
            rcases r2 with e2 | o2
            · dsimp only
              cases e2 <;> dsimp only
              case returnError v => split <;> rfl
              all_goals rfl
            · dsimp only
              split <;> rfl
  · intro n s b
    simp only [Interpreter.runJob]
    rcases hq : Interpreter.runJob n
        { s with envHeap := s.envHeap ++ [(⟨[], some s.environment⟩ : EnvironmentData)],
                 environment := s.envHeap.length }
        (.execSeq b) with ⟨s2, r2⟩
    have H := runJob_heapShape n
      { s with envHeap := s.envHeap ++ [(⟨[], some s.environment⟩ : EnvironmentData)],
               environment := s.envHeap.length }
      (.execSeq b)
    rw [hq] at H
    have hidx : s.envHeap.length <
        (s.envHeap ++ [(⟨[], some s.environment⟩ : EnvironmentData)]).length := by simp
    have hfresh := H.2 s.envHeap.length hidx
    have hget : (s.envHeap ++ [(⟨[], some s.environment⟩ : EnvironmentData)]).get?
        s.envHeap.length = some ⟨[], some s.environment⟩ := List.get?_concat_length _ _
    rcases r2 with e2 | o2
    · dsimp only
      rw [hfresh, hget]
      rfl
    · dsimp only
      rw [hfresh, hget]
      rfl
  · intro n s f args values hbp
    simp only [Interpreter.runJob, hbp]
    rcases hq : Interpreter.runJob n
        { s with envHeap := s.envHeap ++ [(⟨values, some f.closure⟩ : EnvironmentData)],
                 environment := s.envHeap.length }
        (.execSeq f.declaration.body) with ⟨s2, r2⟩
    have H := runJob_heapShape n
      { s with envHeap := s.envHeap ++ [(⟨values, some f.closure⟩ : EnvironmentData)],
               environment := s.envHeap.length }
      (.execSeq f.declaration.body)
    rw [hq] at H
    have hidx : s.envHeap.length <
        (s.envHeap ++ [(⟨values, some f.closure⟩ : EnvironmentData)]).length := by simp
    have hfresh := H.2 s.envHeap.length hidx
    have hget : (s.envHeap ++ [(⟨values, some f.closure⟩ : EnvironmentData)]).get?
        s.envHeap.length = some ⟨values, some f.closure⟩ := List.get?_concat_length _ _
    rcases r2 with e2 | o2
    · dsimp only
      cases e2 <;> dsimp only
      case returnError v =>
        split <;> (rw [hfresh, hget]; rfl)
      all_goals (rw [hfresh, hget]; rfl)
    · dsimp only
      split <;> (rw [hfresh, hget]; rfl)

/-- C7 witness: the framing theorem applied at a concrete block and a
concrete parameterless function call. -/
theorem c7_environment_framing_witness :
    ((Interpreter.runJob 5 Interpreter.defaultState
        (.exec (.block [.print (.literal ⟨.string "x", 1⟩)]))).1).environment = 0 ∧
    (((Interpreter.runJob 5 Interpreter.defaultState
        (.callFunction (.mk (.mk ⟨.identifier "f", 1⟩ [] []) 0 false) [])).1).envHeap.get?
        1).map (fun e => e.enclosing) = some (some 0) := by
  constructor
  · exact c7_environment_framing.1 5 Interpreter.defaultState _
  · exact c7_environment_framing.2.2.2 4 Interpreter.defaultState
      (.mk (.mk ⟨.identifier "f", 1⟩ [] []) 0 false) [] [] rfl

/-- C4: what the program actually does on its command line, against the
spec's CLI contract.  With no argument the active `main` returns immediately
(exit 0) instead of entering the REPL; with two or more arguments it treats
the first argument's literal text as source to parse and pretty-print
instead of printing `Usage: rlox [script]` and failing.  (The spec-conforming
driver exists in `main.rs` only as commented-out code, and `lox.rs` is not
declared as a module, so `run_prompt`/`run_file` are unreachable.) -/
theorem c4_cli_divergence :
    rloxMain ["rlox"] = .exitSilently ∧
    cliSpecAction ["rlox"] = .repl ∧
    rloxMain ["rlox", "script.lox", "extra"] = .parseAndPrint "script.lox" ∧
    cliSpecAction ["rlox", "script.lox", "extra"] = .usageExit ∧
    rloxMain ["rlox", "script.lox"] = .parseAndPrint "script.lox" ∧
    cliSpecAction ["rlox", "script.lox"] = .runFile "script.lox" := by
  exact ⟨rfl, rfl, rfl, rfl, rfl, rfl⟩

/-- C8 counterexample: the desugared `for (;;) print 1;` is distinguishable,
as a tree, from the hand-written equivalent `while (true) print 1;` — the
synthesized `true` literal carries line 0, which no scanned token has (the
scanner starts at line 1), while the hand-written `true` carries line 1;
the AST's derived equality includes token lines. -/
theorem c8_counterexample :
    (Parser.parse 100 ((Scanner.scan 100 "for (;;) print 1;").toOption.getD [])).2
      = .ok [.whileStmt (.literal ⟨.kwTrue, 0⟩) (.print (.literal ⟨.number ⟨1, 1⟩, 1⟩))] ∧
    (Parser.parse 100 ((Scanner.scan 100 "while (true) print 1;").toOption.getD [])).2
      = .ok [.whileStmt (.literal ⟨.kwTrue, 1⟩) (.print (.literal ⟨.number ⟨1, 1⟩, 1⟩))] ∧
    (Parser.parse 100 ((Scanner.scan 100 "for (;;) print 1;").toOption.getD [])).2
      ≠ (Parser.parse 100 ((Scanner.scan 100 "while (true) print 1;").toOption.getD [])).2 := by
  refine ⟨rfl, rfl, fun h => ?_⟩
  have h2 := congrArg
    (fun r : Except PErr (List Stmt) =>
      match r with
      | .ok (st :: _) => Stmt.whileCondLine st
      | _ => 99) h
  exact absurd h2 (by decide)

/-- C8 (amended): `for_statement` assembles exactly the spec's hand-written
form `{ init; while (cond) { body; incr; } }` with the stated omission
rules (proved by comparing the parser's incremental assembly with the tree
the spec describes), and the result is tree-identical to the hand-written
equivalent whenever the pieces come from source tokens — shown on a full
`for` header and on one with only a condition; only the `true` synthesized
for a missing condition (at line 0) makes the trees distinguishable. -/
theorem c8_amended :
    (∀ init cond incr body,
      Parser.assembleFor init cond incr body = forDesugarSpec init cond incr body) ∧
    (Parser.parse 300 ((Scanner.scan 300 "for (var i = 0; i < 3; i = i + 1) print i;").toOption.getD [])).2
      = (Parser.parse 300 ((Scanner.scan 300 "{ var i = 0; while (i < 3) { print i; i = i + 1; } }").toOption.getD [])).2 ∧
    (Parser.parse 300 ((Scanner.scan 300 "for (; x < 3;) print 1;").toOption.getD [])).2
      = (Parser.parse 300 ((Scanner.scan 300 "while (x < 3) print 1;").toOption.getD [])).2 ∧
    (Parser.parse 100 ((Scanner.scan 100 "for (;;) print 1;").toOption.getD [])).2
      = .ok [Parser.assembleFor none (.literal ⟨.kwTrue, 0⟩) none
              (.print (.literal ⟨.number ⟨1, 1⟩, 1⟩))] := by
  refine ⟨?_, rfl, rfl, rfl⟩
  intro init cond incr body
  cases init <;> cases incr <;> rfl

/-- C5 counterexample: value equality is not identity on the
function/class/instance side.  Two distinct instance allocations with equal
contents compare equal (`Rc<RefCell<Instance>>` compares contents, with no
pointer shortcut), and a function value does not even compare equal to
itself (`PartialEq for Function` returns `false` unconditionally). -/
theorem c5_counterexample :
    LoxValue.beq [⟨.mk "A" none [], []⟩, ⟨.mk "A" none [], []⟩] 1
        (.instanceV 0) (.instanceV 1) = true ∧
    (0 : Nat) ≠ 1 ∧
    LoxValue.beq [] 1
        (.function (.mk (.mk ⟨.identifier "f", 1⟩ [] []) 0 false))
        (.function (.mk (.mk ⟨.identifier "f", 1⟩ [] []) 0 false)) = false := by
  exact ⟨rfl, by decide, rfl⟩

/-- C5 (amended): the program's value equality is structural on `Nil`,
`Boolean`, `Number`, `String`; `Function` and `NativeFunction` values never
compare equal (not even a value with itself); `Class` values compare by the
derived structural equality, under which a class carrying at least one
method is unequal even to itself (method values never compare equal) while
method-free classes compare by name and superclass; `Instance` values
compare by their current contents with no pointer shortcut — the classes
must compare equal structurally and the field maps must agree pointwise
under this same value equality — so two distinct field-free allocations
compare equal exactly when their classes do, while an instance holding a
function-valued field compares unequal to an identically-filled distinct
allocation, and even to itself. -/
theorem c5_amended :
    (∀ h n x y, LoxValue.beq h n (.number x) (.number y) = x.beq y) ∧
    (∀ h n a b, LoxValue.beq h n (.string a) (.string b) = (a == b)) ∧
    (∀ h n a b, LoxValue.beq h n (.boolean a) (.boolean b) = (a == b)) ∧
    (∀ h n, LoxValue.beq h n .nil .nil = true) ∧
    (∀ h n f g, LoxValue.beq h n (.function f) (.function g) = false) ∧
    (∀ h n a b, LoxValue.beq h n (.nativeFunction a) (.nativeFunction b) = false) ∧
    (∀ h n c d, LoxValue.beq h n (.classV c) (.classV d) = ClassV.beq c d) ∧
    (∀ nm sc k fn rest,
      ClassV.beq (.mk nm sc ((k, fn) :: rest)) (.mk nm sc ((k, fn) :: rest)) = false) ∧
    (∀ h n i j d1 d2, h.get? i = some d1 → h.get? j = some d2 →
      LoxValue.beq h (n+1) (.instanceV i) (.instanceV j)
        = (ClassV.beq d1.klass d2.klass && d1.fields.length == d2.fields.length &&
           loxValueBeqAux h n (.fieldsAll d1.fields d2.fields))) ∧
    (∀ h n i j d1 d2, h.get? i = some d1 → h.get? j = some d2 →
      d1.fields = [] → d2.fields = [] →
      LoxValue.beq h (n+1) (.instanceV i) (.instanceV j)
        = ClassV.beq d1.klass d2.klass) ∧
    (∀ h n i j klass k f rest,
      h.get? i = some ⟨klass, (k, .function f) :: rest⟩ →
      h.get? j = some ⟨klass, (k, .function f) :: rest⟩ →
      LoxValue.beq h (n+2) (.instanceV i) (.instanceV j) = false) := by
  refine ⟨fun _ n _ _ => by cases n <;> rfl, fun _ n _ _ => by cases n <;> rfl,
    fun _ n _ _ => by cases n <;> rfl, fun _ n => by cases n <;> rfl,
    fun _ n _ _ => by cases n <;> rfl, fun _ n _ _ => by cases n <;> rfl,
    fun _ n _ _ => by cases n <;> rfl, ?_, ?_, ?_, ?_⟩
  · intro nm sc k fn rest
    simp [ClassV.beq, methodsMapBeq, lookupStr, FunctionV.beq]
  · intro h n i j d1 d2 hi hj
    simp only [LoxValue.beq, loxValueBeqAux, hi, hj]
  · intro h n i j d1 d2 hi hj h1 h2
    simp only [LoxValue.beq, loxValueBeqAux, hi, hj, h1, h2]
    simp
  · intro h n i j klass k f rest hi hj
    simp only [LoxValue.beq, loxValueBeqAux, hi, hj, lookupStr, beq_self_eq_true, if_true,
      FunctionV.beq]
    simp

/-- C5 witness: the amended instance clauses applied at concrete heaps — two
separate field-free allocations of the same method-free class compare equal
as their class does, while two identically-filled allocations carrying a
function-valued field compare unequal, as does such an instance with
itself. -/
theorem c5_amended_witness :
    LoxValue.beq [⟨.mk "B" none [], []⟩, ⟨.mk "B" none [], []⟩] 2
        (.instanceV 0) (.instanceV 1)
      = ClassV.beq (.mk "B" none []) (.mk "B" none []) ∧
    LoxValue.beq
        [(⟨.mk "B" none [],
            [("m", .function (.mk (.mk ⟨.identifier "f", 1⟩ [] []) 0 false))]⟩ : InstanceData),
         ⟨.mk "B" none [],
            [("m", .function (.mk (.mk ⟨.identifier "f", 1⟩ [] []) 0 false))]⟩] 3
        (.instanceV 0) (.instanceV 1) = false ∧
    LoxValue.beq
        [(⟨.mk "B" none [],
            [("m", .function (.mk (.mk ⟨.identifier "f", 1⟩ [] []) 0 false))]⟩ : InstanceData)] 3
        (.instanceV 0) (.instanceV 0) = false := by
  refine ⟨c5_amended.2.2.2.2.2.2.2.2.2.1
      [⟨.mk "B" none [], []⟩, ⟨.mk "B" none [], []⟩] 1 0 1
      ⟨.mk "B" none [], []⟩ ⟨.mk "B" none [], []⟩ rfl rfl rfl rfl, ?_, ?_⟩
  · exact c5_amended.2.2.2.2.2.2.2.2.2.2
      [⟨.mk "B" none [],
          [("m", .function (.mk (.mk ⟨.identifier "f", 1⟩ [] []) 0 false))]⟩,
        ⟨.mk "B" none [],
          [("m", .function (.mk (.mk ⟨.identifier "f", 1⟩ [] []) 0 false))]⟩] 1 0 1
      (.mk "B" none []) "m" (.mk (.mk ⟨.identifier "f", 1⟩ [] []) 0 false) [] rfl rfl
  · exact c5_amended.2.2.2.2.2.2.2.2.2.2
      [⟨.mk "B" none [],
          [("m", .function (.mk (.mk ⟨.identifier "f", 1⟩ [] []) 0 false))]⟩] 1 0 0
      (.mk "B" none []) "m" (.mk (.mk ⟨.identifier "f", 1⟩ [] []) 0 false) [] rfl rfl

/-- C6 counterexample: evaluating `1 + "a"` raises a runtime error whose
message is `Expected two numbers or two strings`, not the claimed
`Operands must be two numbers or two strings.`. -/
theorem c6_counterexample :
    (Lox.run 1000 "1 + \"a\";").result =
      some (.error (.runtimeError ⟨.plus, 1⟩ "Expected two numbers or two strings")) ∧
    "Expected two numbers or two strings" ≠ "Operands must be two numbers or two strings." := by
  exact ⟨rfl, by decide⟩

/-- C6 (amended): the `+` dispatch of `visit_binary`, applied to the
evaluated operands, adds two numbers, concatenates two strings, and for
every other combination of operand values produces a runtime error carrying
the operator token and the message `Expected two numbers or two strings`,
producing no value. -/
theorem c6_amended (valueBeq : LoxValue → LoxValue → Bool) (t : Token)
    (ht : t.kind = .plus) :
    (∀ x y, Interpreter.applyBinaryOperator valueBeq t (.number x) (.number y)
      = .ok (.number (x.add y))) ∧
    (∀ a b, Interpreter.applyBinaryOperator valueBeq t (.string a) (.string b)
      = .ok (.string (a ++ b))) ∧
    (∀ l r, Interpreter.plusShape l r = false →
      Interpreter.applyBinaryOperator valueBeq t l r
        = .error (.runtimeError t "Expected two numbers or two strings")) := by
  refine ⟨?_, ?_, ?_⟩
  · intro x y
    unfold Interpreter.applyBinaryOperator
    rw [ht]
  · intro a b
    unfold Interpreter.applyBinaryOperator
    rw [ht]
  · intro l r hshape
    unfold Interpreter.applyBinaryOperator
    rw [ht]
    cases l <;> cases r <;>
      first
      | rfl
      | (exfalso; simp [Interpreter.plusShape] at hshape)

/-- C6 witness: the amended `+` dispatch applied at concrete operands,
including a number/string pair that errors. -/
theorem c6_amended_witness :
    Interpreter.applyBinaryOperator (fun _ _ => false) ⟨.plus, 1⟩
        (.number ⟨1, 1⟩) (.number ⟨2, 1⟩) = .ok (.number ((⟨1, 1⟩ : LoxNum).add ⟨2, 1⟩)) ∧
    Interpreter.applyBinaryOperator (fun _ _ => false) ⟨.plus, 1⟩
        (.number ⟨1, 1⟩) (.string "a")
      = .error (.runtimeError ⟨.plus, 1⟩ "Expected two numbers or two strings") := by
  refine ⟨(c6_amended (fun _ _ => false) ⟨.plus, 1⟩ rfl).1 ⟨1, 1⟩ ⟨2, 1⟩, ?_⟩
  exact (c6_amended (fun _ _ => false) ⟨.plus, 1⟩ rfl).2.2 (.number ⟨1, 1⟩) (.string "a") rfl

/-- If no scope under scan contains the name, `resolve_local`'s loop records
nothing and leaves the resolver untouched. -/
theorem resolveLocalLoop_notFound (s : ResolverState) (e : Expr) (id : String) :
    ∀ scopes j, scopes.all (fun sc => !containsStr sc id) = true →
      Resolver.resolveLocalLoop s e id j scopes = s := by
  intro scopes
  induction scopes with
  | nil => intro j _; rfl
  | cons sc rest ih =>
      intro j hall
      simp only [List.all_cons, Bool.and_eq_true, Bool.not_eq_true'] at hall
      unfold Resolver.resolveLocalLoop
      rw [hall.1]
      simp only [Bool.false_eq_true, if_false]
      exact ih (j+1) (by simp only [List.all_eq_true] at hall ⊢; exact fun x hx => hall.2 x hx)

/-- C9: a `Super` expression with no locals entry panics the interpreter
(the `unwrap` of `None`) instead of producing a reported `RuntimeError`, and
such expressions reach evaluation through the public `run` pipeline, because
the resolver records a distance for `super` only when some scope in range
binds `super` (pushed only for a class with a superclass) and reports no
error otherwise: both `super.m();` at top level and `super.m()` inside a
superclass-less class run to the panic outcome with no parser or resolver
diagnostic. -/
theorem c9_super_unwrap_panic :
    (Lox.run 1000 "super.m();").result = some (.error .panic) ∧
    (Lox.run 1000 "super.m();").resolverDiags = [] ∧
    (Lox.run 1000 "super.m();").parseDiags = [] ∧
    (Lox.run 3000 "class A { m() { super.m(); } } A().m();").result = some (.error .panic) ∧
    (Lox.run 3000 "class A { m() { super.m(); } } A().m();").resolverDiags = [] ∧
    (∀ n s kw m, s.scopes.all (fun sc => !containsStr sc "super") = true →
      Resolver.runJob (n+1) s (.rexpr (.superE kw m)) = s) ∧
    (∀ s kw m, localsGet s.locals (.superE kw m) = none →
      (Interpreter.runJob 1 s (.eval (.superE kw m))).2 = .error .panic) := by
  refine ⟨rfl, rfl, rfl, rfl, rfl, ?_, ?_⟩
  · intro n s kw m hall
    simp only [Resolver.runJob, Resolver.resolveLocal]
    exact resolveLocalLoop_notFound s _ "super" s.scopes 0 hall
  · intro s kw m hnone
    simp only [Interpreter.runJob, hnone]

/-- C9 witness: the resolver clause applied at the initial resolver state
(no scopes, hence no `super`), and the interpreter clause applied at the
default state (empty locals table). -/
theorem c9_super_unwrap_panic_witness :
    Resolver.runJob 1 Resolver.initialState
        (.rexpr (.superE ⟨.kwSuper, 1⟩ ⟨.identifier "m", 1⟩)) = Resolver.initialState ∧
    (Interpreter.runJob 1 Interpreter.defaultState
        (.eval (.superE ⟨.kwSuper, 1⟩ ⟨.identifier "m", 1⟩))).2 = .error .panic := by
  constructor
  · exact c9_super_unwrap_panic.2.2.2.2.2.1 0 Resolver.initialState
      ⟨.kwSuper, 1⟩ ⟨.identifier "m", 1⟩ rfl
  · exact c9_super_unwrap_panic.2.2.2.2.2.2 Interpreter.defaultState
      ⟨.kwSuper, 1⟩ ⟨.identifier "m", 1⟩ rfl

/-- C1: evidence that a runtime error raised inside the implicit `init`
call is discarded by `Class::call`.  The bound initializer's own invocation
fails with the `+` type error, yet `Class::call` on the same class returns
the instance normally (its `let _ =` drops the `Result`), and the
end-to-end run of `class F { init() { 1 + "a"; } } F(); print "after";`
finishes without error and still prints `after` — against the claim (and
spec §7) that the error halts the run and propagates out of the
constructor. -/
theorem c1_init_error_swallowed :
    (Interpreter.runJob 50 Interpreter.defaultState
        (.callClass (.mk "F" none [("init", .mk (.mk ⟨.identifier "init", 1⟩ []
          [.expression (.binary (.literal ⟨.number ⟨1, 1⟩, 1⟩) ⟨.plus, 1⟩
            (.literal ⟨.string "a", 1⟩))]) 0 true)]) [])).2
      = .ok (.val (.instanceV 0)) ∧
    (Interpreter.runJob 49
        { Interpreter.defaultState with
            instHeap := [⟨.mk "F" none [("init", .mk (.mk ⟨.identifier "init", 1⟩ []
              [.expression (.binary (.literal ⟨.number ⟨1, 1⟩, 1⟩) ⟨.plus, 1⟩
                (.literal ⟨.string "a", 1⟩))]) 0 true)], []⟩],
            envHeap := Interpreter.defaultState.envHeap ++
              [(⟨[("this", .instanceV 0)], some 0⟩ : EnvironmentData)] }
        (.callFunction (.mk (.mk ⟨.identifier "init", 1⟩ []
          [.expression (.binary (.literal ⟨.number ⟨1, 1⟩, 1⟩) ⟨.plus, 1⟩
            (.literal ⟨.string "a", 1⟩))]) 1 true) [])).2
      = .error (.runtimeError ⟨.plus, 1⟩ "Expected two numbers or two strings") ∧
    (Lox.run 3000 "class F \x7b init() \x7b 1 + \"a\"; \x7d \x7d F(); print \"after\";").result
      = some (.ok ()) ∧
    (Lox.run 3000 "class F \x7b init() \x7b 1 + \"a\"; \x7d \x7d F(); print \"after\";").output
      = ["after"] := by
  exact ⟨rfl, rfl, rfl, rfl⟩

/-- Parameter binding never produces the return signal. -/
theorem bindParameters_ne_returnError :
    ∀ ps args acc v, Function.bindParameters ps args acc ≠ .error (.returnError v) := by
  intro ps
  induction ps with
  | nil => intro args acc v h; cases h
  | cons p rest ih =>
      intro args acc v
      cases args with
      | nil => intro h; cases h
      | cons a as =>
          unfold Function.bindParameters
          cases p.kind with
          | identifier id => exact ih as _ v
          | _ => intro h; cases h

/-- `get_at` never produces the return signal. -/
theorem getAt_ne_returnError (heap : List EnvironmentData) :
    ∀ d r name v, Environment.getAt heap d r name ≠ .error (.returnError v) := by
  intro d
  induction d with
  | zero =>
      intro r name v
      unfold Environment.getAt
      cases name.kind <;> dsimp only
      case identifier id =>
        cases heap.get? r <;> dsimp only
        case none => intro h; cases h
        case some env =>
          cases lookupStr env.values id <;> dsimp only
          case none => intro h; cases h
          case some w => intro h; cases h
      all_goals (intro h; cases h)
  | succ dd ih =>
      intro r name v
      unfold Environment.getAt
      cases heap.get? r <;> dsimp only
      case none => intro h; cases h
      case some env =>
        cases env.enclosing <;> dsimp only
        case some e => exact ih e name v
        case none =>
          cases name.kind <;> dsimp only
          all_goals (intro h; cases h)

/-- C2 counterexample: a top-level `return 5;` makes the whole run produce a
`ReturnError`: `interpret` propagates the unwound signal out of the last
call boundary there is, and `Lox::run` receives (and prints) it like any
other error.  The claim's "the result of a `run` call is never a
ReturnError" fails. -/
theorem c2_counterexample :
    (Lox.run 1000 "return 5;").result = some (.error (.returnError (.number ⟨5, 1⟩))) ∧
    (RErr.returnError (.number ⟨5, 1⟩)).isReturnError = true := by
  exact ⟨rfl, rfl⟩

/-- C2 (amended): `return` is a control-flow signal distinguishable from a
runtime error at the call boundary — `Function::call` can never yield the
return signal itself: a return unwinding out of the body is converted right
there into the call's result, the returned value for an ordinary function
and the bound `this` for an initializer.  However, a top-level `return`
escapes `interpret` as a `ReturnError`, which `Lox::run` surfaces to the
host like an error. -/
theorem c2_amended :
    (∀ n s f args v,
      (Interpreter.runJob n s (.callFunction f args)).2 ≠ .error (.returnError v)) ∧
    (∀ n s f args values s2 v,
      Function.bindParameters f.declaration.params args [] = .ok values →
      f.isInitializer = false →
      Interpreter.runJob n
        { s with envHeap := s.envHeap ++ [(⟨values, some f.closure⟩ : EnvironmentData)],
                 environment := s.envHeap.length }
        (.execSeq f.declaration.body) = (s2, .error (.returnError v)) →
      Interpreter.runJob (n+1) s (.callFunction f args)
        = ({ s2 with environment := s.environment }, .ok (.val v))) ∧
    (∀ n s f args values s2 v envd w,
      Function.bindParameters f.declaration.params args [] = .ok values →
      f.isInitializer = true →
      Interpreter.runJob n
        { s with envHeap := s.envHeap ++ [(⟨values, some f.closure⟩ : EnvironmentData)],
                 environment := s.envHeap.length }
        (.execSeq f.declaration.body) = (s2, .error (.returnError v)) →
      s2.envHeap.get? f.closure = some envd →
      lookupStr envd.values "this" = some w →
      Interpreter.runJob (n+1) s (.callFunction f args)
        = ({ s2 with environment := s.environment }, .ok (.val w))) ∧
    (Lox.run 1000 "return 5;").result = some (.error (.returnError (.number ⟨5, 1⟩))) := by
  refine ⟨?_, ?_, ?_, rfl⟩
  · intro n s f args v
    cases n with
    | zero => intro h; simp [Interpreter.runJob] at h
    | succ n =>
        simp only [Interpreter.runJob]
        cases hbp : Function.bindParameters f.declaration.params args [] with
        | error e =>
            dsimp only
            intro h
            injection h with h2
            exact bindParameters_ne_returnError _ _ _ v (h2 ▸ hbp)
        | ok values =>
            dsimp only
            rcases hq : Interpreter.runJob n
                { s with envHeap := s.envHeap ++ [(⟨values, some f.closure⟩ : EnvironmentData)],
                         environment := s.envHeap.length }
                (.execSeq f.declaration.body) with ⟨s2, r2⟩
            rcases r2 with e2 | o2
            · dsimp only
              cases e2 <;> dsimp only
              case returnError w =>
                split
                · intro h
                  dsimp only at h
                  cases hg : Environment.getAt s2.envHeap 0 f.closure
                      ⟨.identifier "this", 0⟩ with
                  | ok u => rw [hg] at h; simp [Except.map] at h
                  | error eg =>
                      rw [hg] at h
                      simp only [Except.map] at h
                      injection h with h2
                      exact getAt_ne_returnError _ _ _ _ v (h2 ▸ hg)
                · intro h; simp at h
              case runtimeError t m => intro h; simp at h
              case panic => intro h; simp at h
              case outOfFuel => intro h; simp at h
            · dsimp only
              split
              · intro h
                dsimp only at h
                cases hg : Environment.getAt s2.envHeap 0 f.closure
                    ⟨.identifier "this", 0⟩ with
                | ok u => rw [hg] at h; simp [Except.map] at h
                | error eg =>
                    rw [hg] at h
                    simp only [Except.map] at h
                    injection h with h2
                    exact getAt_ne_returnError _ _ _ _ v (h2 ▸ hg)
              · intro h; simp at h
  · intro n s f args values s2 v hbp hinit hbody
    simp only [Interpreter.runJob, hbp]
    rw [hbody]
    dsimp only
    rw [hinit]
    simp
  · intro n s f args values s2 v envd w hbp hinit hbody hgc hlw
    simp only [Interpreter.runJob, hbp]
    rw [hbody]
    dsimp only
    rw [hinit]
    simp only [if_true]
    simp only [Environment.getAt]
    simp only [hgc, hlw]
    rfl

/-- C2 witness: the ordinary-function clause applied at a concrete
parameterless function whose body is `return 7;`. -/
theorem c2_amended_witness :
    Interpreter.runJob 6 Interpreter.defaultState
        (.callFunction (.mk (.mk ⟨.identifier "f", 1⟩ []
          [.returnStmt ⟨.kwReturn, 1⟩ (some (.literal ⟨.number ⟨7, 1⟩, 1⟩))]) 0 false) [])
      = ({ Interpreter.defaultState with
             envHeap := Interpreter.defaultState.envHeap ++ [(⟨[], some 0⟩ : EnvironmentData)],
             environment := 0 }, .ok (.val (.number ⟨7, 1⟩))) := by
  exact c2_amended.2.1 5 Interpreter.defaultState
    (.mk (.mk ⟨.identifier "f", 1⟩ []
      [.returnStmt ⟨.kwReturn, 1⟩ (some (.literal ⟨.number ⟨7, 1⟩, 1⟩))]) 0 false)
    [] [] _ _ rfl rfl rfl

/-- `get_at` with distance `d` reads exactly the environment that `d`
enclosing links reach: it commutes with the ancestor walk, and a
distance-0 read consults only that environment's own map. -/
theorem getAt_ancestor (heap : List EnvironmentData) :
    ∀ d r r2 name, Environment.ancestor heap d r = some r2 →
      Environment.getAt heap d r name = Environment.getAt heap 0 r2 name := by
  intro d
  induction d with
  | zero =>
      intro r r2 name h
      simp only [Environment.ancestor, Option.some.injEq] at h
      rw [h]
  | succ dd ih =>
      intro r r2 name h
      cases hg : heap.get? r with
      | none => simp only [Environment.ancestor, hg] at h; exact Option.noConfusion h
      | some env =>
          cases he : env.enclosing with
          | none => simp only [Environment.ancestor, hg, he] at h; exact Option.noConfusion h
          | some e =>
              simp only [Environment.ancestor, hg, he] at h
              simp only [Environment.getAt, hg, he]
              exact ih e r2 name h

/-- `assign_at` with distance `d` writes exactly the environment that `d`
enclosing links reach. -/
theorem assignAt_ancestor (heap : List EnvironmentData) :
    ∀ d r r2 name v, Environment.ancestor heap d r = some r2 →
      Environment.assignAt heap d r name v = Environment.assignAt heap 0 r2 name v := by
  intro d
  induction d with
  | zero =>
      intro r r2 name v h
      simp only [Environment.ancestor, Option.some.injEq] at h
      rw [h]
  | succ dd ih =>
      intro r r2 name v h
      cases hg : heap.get? r with
      | none => simp only [Environment.ancestor, hg] at h; exact Option.noConfusion h
      | some env =>
          cases he : env.enclosing with
          | none => simp only [Environment.ancestor, hg, he] at h; exact Option.noConfusion h
          | some e =>
              simp only [Environment.ancestor, hg, he] at h
              simp only [Environment.assignAt, hg, he]
              exact ih e r2 name v h

/-- C3 counterexample: the locals side-table is keyed on the expression
value (the `PartialEq` the `HashMap` key uses), not on node identity, so the
two distinct `print a` occurrences of this well-scoped program — the first
resolving its `a` at distance 0, the second at distance 2 — share one table
slot, and the second resolution overwrites the first.  The final table maps
the shared key to 2; evaluating the first occurrence then walks two links up
from its environment, misses the binding the resolver found for it, and the
run reports `Undefined variable 'a'` with no output, where the claim
requires each occurrence to read the binding of the scope the resolver
found. -/
theorem c3_counterexample :
    (Lox.run 2000 "{ var a = 1; { var a = 2; print a; } { { print a; } } }").locals
      = [(.variableE ⟨.identifier "a", 1⟩, 2)] ∧
    (Lox.run 2000 "{ var a = 1; { var a = 2; print a; } { { print a; } } }").result
      = some (.error (.runtimeError ⟨.identifier "a", 1⟩ "Undefined variable 'a'")) ∧
    (Lox.run 2000 "{ var a = 1; { var a = 2; print a; } { { print a; } } }").output
      = [] := by
  exact ⟨rfl, rfl, rfl⟩

/-- C3 (amended): resolver/interpreter agreement holds relative to the
final locals table under its expression-value keying (a later
structurally-equal expression overwrites an earlier occurrence's slot).
An expression carrying distance `d` in the table at evaluation time is
read, and written, exactly `d` enclosing links up from the current
environment: `look_up_variable` dispatches a present entry to
`get_at d` and an absent one to a search of the global environment;
`get_at`/`assign_at` act on precisely the environment the `d` links
reach, with no outward search; and evaluating a `Variable` expression is
exactly `look_up_variable` keyed on that expression. -/
theorem c3_amended :
    (∀ s name expr d, localsGet s.locals expr = some d →
      Interpreter.lookUpVariable s name expr
        = Environment.getAt s.envHeap d s.environment name) ∧
    (∀ s name expr, localsGet s.locals expr = none →
      Interpreter.lookUpVariable s name expr
        = Environment.get s.envHeap s.globals name) ∧
    (∀ heap d r r2 name, Environment.ancestor heap d r = some r2 →
      Environment.getAt heap d r name = Environment.getAt heap 0 r2 name) ∧
    (∀ heap d r r2 name v, Environment.ancestor heap d r = some r2 →
      Environment.assignAt heap d r name v = Environment.assignAt heap 0 r2 name v) ∧
    (∀ n s name, Interpreter.runJob (n+1) s (.eval (.variableE name))
      = (s, (Interpreter.lookUpVariable s name (.variableE name)).map .val)) ∧
    (∀ n s name vexpr s1 v d, Interpreter.runJob n s (.eval vexpr) = (s1, .ok (.val v)) →
      localsGet s1.locals (.assign name vexpr) = some d →
      Interpreter.runJob (n+1) s (.eval (.assign name vexpr))
        = ({ s1 with
              envHeap := (Environment.assignAt s1.envHeap d s1.environment name v).1 },
           (Environment.assignAt s1.envHeap d s1.environment name v).2.map .val)) := by
  refine ⟨?_, ?_, fun heap => getAt_ancestor heap, fun heap => assignAt_ancestor heap,
    fun _ _ _ => rfl, ?_⟩
  · intro s name expr d h
    unfold Interpreter.lookUpVariable
    rw [h]
  · intro s name expr h
    unfold Interpreter.lookUpVariable
    rw [h]
  · intro n s name vexpr s1 v d h1 h2
    simp only [Interpreter.runJob]
    rw [h1]
    dsimp only
    rw [h2]

/-- C3 witness: the amended agreement applied at a concrete two-environment
state — a global environment binding `x` enclosed by an inner one — with a
locals entry of distance 1 for the variable `x`, an absent entry for `y`,
the ancestor walk from the inner environment, and a distance-1 assignment
dispatched from a concrete `Assign` expression. -/
theorem c3_amended_witness :
    Interpreter.lookUpVariable
        ⟨[(⟨[("x", .number ⟨1, 1⟩)], none⟩ : EnvironmentData), ⟨[], some 0⟩], [], 1, 0,
          [(.variableE ⟨.identifier "x", 1⟩, 1)], []⟩
        ⟨.identifier "x", 1⟩ (.variableE ⟨.identifier "x", 1⟩)
      = Environment.getAt
          [(⟨[("x", .number ⟨1, 1⟩)], none⟩ : EnvironmentData), ⟨[], some 0⟩] 1 1
          ⟨.identifier "x", 1⟩ ∧
    Interpreter.lookUpVariable
        ⟨[(⟨[("x", .number ⟨1, 1⟩)], none⟩ : EnvironmentData), ⟨[], some 0⟩], [], 1, 0,
          [(.variableE ⟨.identifier "x", 1⟩, 1)], []⟩
        ⟨.identifier "y", 1⟩ (.variableE ⟨.identifier "y", 1⟩)
      = Environment.get
          [(⟨[("x", .number ⟨1, 1⟩)], none⟩ : EnvironmentData), ⟨[], some 0⟩] 0
          ⟨.identifier "y", 1⟩ ∧
    Environment.getAt
        [(⟨[("x", .number ⟨1, 1⟩)], none⟩ : EnvironmentData), ⟨[], some 0⟩] 1 1
        ⟨.identifier "x", 1⟩
      = Environment.getAt
          [(⟨[("x", .number ⟨1, 1⟩)], none⟩ : EnvironmentData), ⟨[], some 0⟩] 0 0
          ⟨.identifier "x", 1⟩ ∧
    Environment.assignAt
        [(⟨[("x", .number ⟨1, 1⟩)], none⟩ : EnvironmentData), ⟨[], some 0⟩] 1 1
        ⟨.identifier "x", 1⟩ (.number ⟨2, 1⟩)
      = Environment.assignAt
          [(⟨[("x", .number ⟨1, 1⟩)], none⟩ : EnvironmentData), ⟨[], some 0⟩] 0 0
          ⟨.identifier "x", 1⟩ (.number ⟨2, 1⟩) ∧
    Interpreter.runJob 2
        ⟨[(⟨[("x", .number ⟨1, 1⟩)], none⟩ : EnvironmentData), ⟨[], some 0⟩], [], 1, 0,
          [(.assign ⟨.identifier "x", 1⟩ (.literal ⟨.number ⟨5, 1⟩, 1⟩), 1)], []⟩
        (.eval (.assign ⟨.identifier "x", 1⟩ (.literal ⟨.number ⟨5, 1⟩, 1⟩)))
      = (⟨[(⟨[("x", .number ⟨5, 1⟩)], none⟩ : EnvironmentData), ⟨[], some 0⟩], [], 1, 0,
          [(.assign ⟨.identifier "x", 1⟩ (.literal ⟨.number ⟨5, 1⟩, 1⟩), 1)], []⟩,
         .ok (.val (.number ⟨5, 1⟩))) := by
  refine ⟨c3_amended.1 _ _ _ 1 rfl, c3_amended.2.1 _ _ _ rfl,
    c3_amended.2.2.1 _ 1 1 0 _ rfl, c3_amended.2.2.2.1 _ 1 1 0 _ _ rfl, ?_⟩
  exact c3_amended.2.2.2.2.2 1
    ⟨[(⟨[("x", .number ⟨1, 1⟩)], none⟩ : EnvironmentData), ⟨[], some 0⟩], [], 1, 0,
      [(.assign ⟨.identifier "x", 1⟩ (.literal ⟨.number ⟨5, 1⟩, 1⟩), 1)], []⟩
    ⟨.identifier "x", 1⟩ (.literal ⟨.number ⟨5, 1⟩, 1⟩)
    ⟨[(⟨[("x", .number ⟨1, 1⟩)], none⟩ : EnvironmentData), ⟨[], some 0⟩], [], 1, 0,
      [(.assign ⟨.identifier "x", 1⟩ (.literal ⟨.number ⟨5, 1⟩, 1⟩), 1)], []⟩
    (.number ⟨5, 1⟩) 1 rfl rfl

/-- A map that does not contain a key has no value for it. -/
theorem lookupStr_eq_none_of_not_contains {α : Type} :
    ∀ (m : List (String × α)) (id : String), containsStr m id = false →
      lookupStr m id = none := by
  intro m
  induction m with
  | nil => intro id _; rfl
  | cons p rest ih =>
      intro id h
      rcases p with ⟨k, v⟩
      simp only [containsStr, Bool.or_eq_false_iff] at h
      simp only [lookupStr, h.1, Bool.false_eq_true, if_false]
      exact ih id h.2

/-- `Environment::get`'s outward walk on a name bound nowhere on the chain:
on a well-formed heap the walk ends at the chain's root and reports the
undefined variable. -/
theorem getLoop_unbound (heap : List EnvironmentData) (hwf : Environment.wf heap)
    (id : String) (line : Nat) :
    ∀ fuel r, r < heap.length → r < fuel →
      Environment.boundOnChain heap fuel r id = false →
      Environment.getLoop heap fuel r ⟨.identifier id, line⟩
        = .error (.runtimeError ⟨.identifier id, line⟩ ("Undefined variable '" ++ id ++ "'")) := by
  intro fuel
  induction fuel with
  | zero => intro r _ h2 _; exact absurd h2 (Nat.not_lt_zero r)
  | succ fuel ih =>
      intro r hr hrf hb
      cases hg : heap.get? r with
      | none =>
          have := List.get?_eq_none.mp hg
          omega
      | some env =>
          have hl : lookupStr env.values id = none := by
            cases he : env.enclosing <;>
              simp only [Environment.boundOnChain, hg, he, Bool.or_eq_false_iff] at hb <;>
              exact lookupStr_eq_none_of_not_contains env.values id hb.1
          cases he : env.enclosing with
          | none => simp only [Environment.getLoop, hg, hl, he]
          | some e =>
              simp only [Environment.boundOnChain, hg, he, Bool.or_eq_false_iff] at hb
              have hel : e < r := hwf r env hg e he
              simp only [Environment.getLoop, hg, hl, he]
              exact ih e (by omega) (by omega) hb.2

/-- `Environment::assign`'s outward walk on a name bound nowhere on the
chain: it reports the undefined variable and returns the heap unchanged,
creating no binding. -/
theorem assignLoop_unbound (heap : List EnvironmentData) (hwf : Environment.wf heap)
    (id : String) (line : Nat) (v : LoxValue) :
    ∀ fuel r, r < heap.length → r < fuel →
      Environment.boundOnChain heap fuel r id = false →
      Environment.assignLoop heap fuel r ⟨.identifier id, line⟩ v
        = (heap,
           .error (.runtimeError ⟨.identifier id, line⟩ ("Undefined variable '" ++ id ++ "'"))) := by
  intro fuel
  induction fuel with
  | zero => intro r _ h2 _; exact absurd h2 (Nat.not_lt_zero r)
  | succ fuel ih =>
      intro r hr hrf hb
      cases hg : heap.get? r with
      | none =>
          have := List.get?_eq_none.mp hg
          omega
      | some env =>
          cases he : env.enclosing with
          | none =>
              simp only [Environment.boundOnChain, hg, he, Bool.or_eq_false_iff] at hb
              simp only [Environment.assignLoop, hg, hb.1, Bool.false_eq_true, if_false, he]
          | some e =>
              simp only [Environment.boundOnChain, hg, he, Bool.or_eq_false_iff] at hb
              have hel : e < r := hwf r env hg e he
              simp only [Environment.assignLoop, hg, hb.1, Bool.false_eq_true, if_false, he]
              exact ih e (by omega) (by omega) hb.2

/-- C10: a variable bound in no environment on the chain is a
`RuntimeError` whose message is exactly `Undefined variable '<name>'`: the
read walk reports it, the assign walk reports it while returning the heap
unchanged (no binding is created and every environment keeps its contents),
the read walk searches outward from the innermost environment (a binding in
the starting environment is returned at once, whatever outer environments
hold), and a variable expression with no locals entry falls through to a
search of the global environment. -/
theorem c10_undefined_variable :
    (∀ heap r line id, Environment.wf heap → r < heap.length →
      Environment.boundOnChain heap (heap.length + 1) r id = false →
      Environment.get heap r ⟨.identifier id, line⟩
        = .error (.runtimeError ⟨.identifier id, line⟩
            ("Undefined variable '" ++ id ++ "'"))) ∧
    (∀ heap r line id v, Environment.wf heap → r < heap.length →
      Environment.boundOnChain heap (heap.length + 1) r id = false →
      Environment.assign heap r ⟨.identifier id, line⟩ v
        = (heap,
           .error (.runtimeError ⟨.identifier id, line⟩
             ("Undefined variable '" ++ id ++ "'")))) ∧
    (∀ heap r line id v env, heap.get? r = some env → lookupStr env.values id = some v →
      Environment.get heap r ⟨.identifier id, line⟩ = .ok v) ∧
    (∀ s name expr, localsGet s.locals expr = none →
      Interpreter.lookUpVariable s name expr
        = Environment.get s.envHeap s.globals name) := by
  refine ⟨?_, ?_, ?_, ?_⟩
  · intro heap r line id hwf hr hb
    exact getLoop_unbound heap hwf id line (heap.length + 1) r hr (by omega) hb
  · intro heap r line id v hwf hr hb
    exact assignLoop_unbound heap hwf id line v (heap.length + 1) r hr (by omega) hb
  · intro heap r line id v env hg hl
    cases hlen : heap.length with
    | zero =>
        rcases List.get?_eq_some.mp hg with ⟨hlt, -⟩
        omega
    | succ m =>
        simp only [Environment.get, hlen, Environment.getLoop, hg, hl]
  · intro s name expr h
    unfold Interpreter.lookUpVariable
    rw [h]

/-- C10 witness: the undefined-variable clauses applied at a concrete
one-environment heap binding only `x`, reading and assigning the unbound
`z`, reading the bound `x`, and a locals-free variable lookup on the
default interpreter state. -/
theorem c10_undefined_variable_witness :
    Environment.get [(⟨[("x", .number ⟨1, 1⟩)], none⟩ : EnvironmentData)] 0
        ⟨.identifier "z", 1⟩
      = .error (.runtimeError ⟨.identifier "z", 1⟩ "Undefined variable 'z'") ∧
    Environment.assign [(⟨[("x", .number ⟨1, 1⟩)], none⟩ : EnvironmentData)] 0
        ⟨.identifier "z", 1⟩ (.number ⟨2, 1⟩)
      = ([(⟨[("x", .number ⟨1, 1⟩)], none⟩ : EnvironmentData)],
         .error (.runtimeError ⟨.identifier "z", 1⟩ "Undefined variable 'z'")) ∧
    Environment.get [(⟨[("x", .number ⟨1, 1⟩)], none⟩ : EnvironmentData)] 0
        ⟨.identifier "x", 1⟩
      = .ok (.number ⟨1, 1⟩) ∧
    Interpreter.lookUpVariable Interpreter.defaultState ⟨.identifier "q", 1⟩
        (.variableE ⟨.identifier "q", 1⟩)
      = Environment.get Interpreter.defaultState.envHeap Interpreter.defaultState.globals
          ⟨.identifier "q", 1⟩ := by
  have hwf : Environment.wf [(⟨[("x", .number ⟨1, 1⟩)], none⟩ : EnvironmentData)] := by
    intro i env hi e he
    match i, hi with
    | 0, hi =>
        cases hi
        cases he
  refine ⟨c10_undefined_variable.1 _ 0 1 "z" hwf (by decide) rfl,
    c10_undefined_variable.2.1 _ 0 1 "z" (.number ⟨2, 1⟩) hwf (by decide) rfl,
    c10_undefined_variable.2.2.1 _ 0 1 "x" (.number ⟨1, 1⟩) _ rfl rfl,
    c10_undefined_variable.2.2.2 _ _ _ rfl⟩
